import Mathlib

/-! The hand selection of the AI opponent (`source/ai_player.c`).

A shallow embedding of `ai_compute_hand_type`, `ai_score_combo` and
`ai_select_best_hand`, followed by the properties proved about them.

Conventions of the embedding:

* a `Card*` is an `Option Card` (`none` is the null pointer), a `Card**` a list of them;
* `int count` is an `Int`; loop indices, masks and counters, which never go
  negative, are `Nat`;
* `u8` and `u32` arithmetic is `Nat` arithmetic reduced modulo `2 ^ 8` and `2 ^ 32`;
* arrays are lists; the functions of `hand_analysis.h` and `card.h`, whose code is
  not part of `ai_player.c`, are parameters (`Externals`).
-/

namespace AiPlayer

/-! ## Data model -/

/-- The two fields of `Card` that `ai_player.c` reads. -/
structure Card where
  rank : Nat
  suit : Nat
deriving DecidableEq, Repr

/-- Modelled from the spec: `NUM_RANKS` of `card.h`, one slot per rank, Two through Ace. -/
def NUM_RANKS : Nat := 13

/-- Modelled from the spec: `NUM_SUITS` of `card.h`, one slot per suit. -/
def NUM_SUITS : Nat := 4

/-- Modelled from the spec: `MAX_SELECTION_SIZE` of `game.h`, at most 5 cards are played. -/
def MAX_SELECTION_SIZE : Nat := 5

/-- Modelled from the spec: rank `TEN` of `card.h`, ranks being numbered from Two = 0. -/
def TEN : Nat := 8

/-- Modelled from the spec: rank `JACK` of `card.h`. -/
def JACK : Nat := 9

/-- Modelled from the spec: rank `QUEEN` of `card.h`. -/
def QUEEN : Nat := 10

/-- Modelled from the spec: rank `KING` of `card.h`. -/
def KING : Nat := 11

/-- Modelled from the spec: rank `ACE` of `card.h`. -/
def ACE : Nat := 12

/-! The values of `enum HandType`, in the order of the rows of `ai_hand_base`; a hand
type is its integer value. -/

def NONE : Nat := 0
def HIGH_CARD : Nat := 1
def PAIR : Nat := 2
def TWO_PAIR : Nat := 3
def THREE_OF_A_KIND : Nat := 4
def STRAIGHT : Nat := 5
def FLUSH : Nat := 6
def FULL_HOUSE : Nat := 7
def FOUR_OF_A_KIND : Nat := 8
def STRAIGHT_FLUSH : Nat := 9
def ROYAL_FLUSH : Nat := 10
def FIVE_OF_A_KIND : Nat := 11
def FLUSH_HOUSE : Nat := 12
def FLUSH_FIVE : Nat := 13

/-- Row type of the table `ai_hand_base`. -/
structure AIHandBaseValues where
  chips : Nat
  mult : Nat
deriving DecidableEq, Repr

/-- The table `ai_hand_base`, indexed by hand type. -/
def ai_hand_base : List AIHandBaseValues :=
  [ ⟨0, 0⟩,      -- NONE
    ⟨5, 1⟩,      -- HIGH_CARD
    ⟨10, 2⟩,     -- PAIR
    ⟨20, 2⟩,     -- TWO_PAIR
    ⟨30, 3⟩,     -- THREE_OF_A_KIND
    ⟨30, 4⟩,     -- STRAIGHT
    ⟨35, 4⟩,     -- FLUSH
    ⟨40, 4⟩,     -- FULL_HOUSE
    ⟨60, 7⟩,     -- FOUR_OF_A_KIND
    ⟨100, 8⟩,    -- STRAIGHT_FLUSH
    ⟨100, 8⟩,    -- ROYAL_FLUSH
    ⟨120, 12⟩,   -- FIVE_OF_A_KIND
    ⟨140, 14⟩,   -- FLUSH_HOUSE
    ⟨160, 16⟩ ]  -- FLUSH_FIVE

/-- Modelled from the spec: the functions `ai_player.c` calls and does not define
(`hand_contains_*` of `hand_analysis.h` on the rank or suit table, `card_get_value`
of `card.h`). They are parameters of the embedding: a property that holds for every
`Externals` holds whatever these functions compute. -/
structure Externals where
  hand_contains_n_of_a_kind : List Nat → Nat
  hand_contains_two_pair : List Nat → Bool
  hand_contains_straight : List Nat → Bool
  hand_contains_flush : List Nat → Bool
  hand_contains_full_house : List Nat → Bool
  card_get_value : Card → Nat

/-- The bitfield `ContainedHandTypes`: one flag per hand type above `NONE`. -/
structure ContainedHandTypes where
  HIGH_CARD : Bool
  PAIR : Bool
  TWO_PAIR : Bool
  THREE_OF_A_KIND : Bool
  STRAIGHT : Bool
  FLUSH : Bool
  FULL_HOUSE : Bool
  FOUR_OF_A_KIND : Bool
  STRAIGHT_FLUSH : Bool
  ROYAL_FLUSH : Bool
  FIVE_OF_A_KIND : Bool
  FLUSH_HOUSE : Bool
  FLUSH_FIVE : Bool
deriving DecidableEq, Repr

/-- The initialiser `{0}` of a `ContainedHandTypes`. -/
def ContainedHandTypes.zero : ContainedHandTypes :=
  ⟨false, false, false, false, false, false, false, false, false, false, false, false, false⟩

/-- Modelled from the spec: the member `value` of the union `ContainedHandTypes` (declared
in `game.h`), the flags read as one integer, the flag of hand type `h` being bit `h - 1`. -/
def ContainedHandTypes.value (ct : ContainedHandTypes) : Nat :=
  Nat.bit ct.HIGH_CARD (Nat.bit ct.PAIR (Nat.bit ct.TWO_PAIR (Nat.bit ct.THREE_OF_A_KIND
  (Nat.bit ct.STRAIGHT (Nat.bit ct.FLUSH (Nat.bit ct.FULL_HOUSE (Nat.bit ct.FOUR_OF_A_KIND
  (Nat.bit ct.STRAIGHT_FLUSH (Nat.bit ct.ROYAL_FLUSH (Nat.bit ct.FIVE_OF_A_KIND
  (Nat.bit ct.FLUSH_HOUSE (Nat.bit ct.FLUSH_FIVE 0))))))))))))

/-! ## `ai_compute_hand_type` -/

/-- The statement `t[i]++` on a table of `u8` counters. -/
def u8_incr (t : List Nat) (i : Nat) : List Nat :=
  t.set i ((t.getD i 0 + 1) % 256)

/-- The frequency tables `ranks` and `suits`. -/
structure FreqTables where
  ranks : List Nat
  suits : List Nat
deriving DecidableEq, Repr

/-- The body of the scanning loop of `ai_compute_hand_type` for one handle. -/
def scan_card (t : FreqTables) (h : Option Card) : FreqTables :=
  match h with
  | some c => ⟨u8_incr t.ranks c.rank, u8_incr t.suits c.suit⟩
  | none => t

/-- The scanning loop of `ai_compute_hand_type`: the tables after `cards[0 .. count-1]`. -/
def scan_cards (cards : List (Option Card)) (count : Nat) : FreqTables :=
  (cards.take count).foldl scan_card ⟨List.replicate NUM_RANKS 0, List.replicate NUM_SUITS 0⟩

/-- Lines 74 to 123 of `ai_compute_hand_type`: the flag set built from the two tables
(`n` is a `u8`). -/
def contained_hand_types (E : Externals) (ranks suits : List Nat) : ContainedHandTypes :=
  let ct : ContainedHandTypes := ContainedHandTypes.zero
  let ct : ContainedHandTypes := { ct with HIGH_CARD := true }
  let n := E.hand_contains_n_of_a_kind ranks % 256
  let ct : ContainedHandTypes :=
    if n ≥ 2 then
      let ct : ContainedHandTypes := { ct with PAIR := true }
      if E.hand_contains_two_pair ranks then { ct with TWO_PAIR := true } else ct
    else ct
  let ct : ContainedHandTypes := if n ≥ 3 then { ct with THREE_OF_A_KIND := true } else ct
  let ct : ContainedHandTypes :=
    if E.hand_contains_straight ranks then { ct with STRAIGHT := true } else ct
  let ct : ContainedHandTypes :=
    if E.hand_contains_flush suits then { ct with FLUSH := true } else ct
  let ct : ContainedHandTypes :=
    if decide (n ≥ 3) && E.hand_contains_full_house ranks then { ct with FULL_HOUSE := true }
    else ct
  let ct : ContainedHandTypes := if n ≥ 4 then { ct with FOUR_OF_A_KIND := true } else ct
  let ct : ContainedHandTypes :=
    if ct.STRAIGHT && ct.FLUSH then { ct with STRAIGHT_FLUSH := true } else ct
  let ct : ContainedHandTypes :=
    if ct.STRAIGHT_FLUSH &&
        (ranks.getD TEN 0 != 0 && ranks.getD JACK 0 != 0 && ranks.getD QUEEN 0 != 0 &&
          ranks.getD KING 0 != 0 && ranks.getD ACE 0 != 0)
    then { ct with ROYAL_FLUSH := true } else ct
  let ct : ContainedHandTypes := if n ≥ 5 then { ct with FIVE_OF_A_KIND := true } else ct
  let ct : ContainedHandTypes :=
    if ct.FLUSH then
      let ct : ContainedHandTypes := if ct.FULL_HOUSE then { ct with FLUSH_HOUSE := true } else ct
      if ct.FIVE_OF_A_KIND then { ct with FLUSH_FIVE := true } else ct
    else ct
  ct

/-- The final loop of `ai_compute_hand_type`, `h` running from its first argument down
to `NONE + 1`: the first `h` whose bit `h - 1` of `value` is set, `NONE` when none is. -/
def highest_hand_type (value : Nat) : Nat → Nat
  | 0 => NONE
  | h + 1 => if (value >>> h) &&& 1 ≠ 0 then h + 1 else highest_hand_type value h

/-- The function `ai_compute_hand_type`. -/
def ai_compute_hand_type (E : Externals) (cards : List (Option Card)) (count : Int) : Nat :=
  if count ≤ 0 then NONE
  else
    let t := scan_cards cards count.toNat
    let ct := contained_hand_types E t.ranks t.suits
    highest_hand_type ct.value FLUSH_FIVE

/-! ## `ai_score_combo` -/

/-- The body of the chip loop of `ai_score_combo` for one handle: `c += card_get_value`
in `u32` arithmetic. -/
def add_card_value (E : Externals) (c : Nat) (h : Option Card) : Nat :=
  match h with
  | some cd => (c + E.card_get_value cd) % 2 ^ 32
  | none => c

/-- Lines 157 to 163 of `ai_score_combo`: the overflow guard and the product, on `u32`. -/
def protected_mult (c m : Nat) : Nat :=
  if c = 0 ∨ m = 0 then 0
  else if c > 0xFFFFFFFF / m then 0xFFFFFFFF
  else (c * m) % 2 ^ 32

/-- The function `ai_score_combo`. -/
def ai_score_combo (E : Externals) (cards : List (Option Card)) (count : Int) : Nat :=
  let ht := ai_compute_hand_type E cards count
  if ht = NONE then 0
  else
    let c := (ai_hand_base.getD ht ⟨0, 0⟩).chips
    let m := (ai_hand_base.getD ht ⟨0, 0⟩).mult
    let c := (cards.take count.toNat).foldl (add_card_value E) c
    protected_mult c m

/-! ## `ai_select_best_hand` -/

/-- The bit-counting loop `while (tmp) { n += tmp & 1; tmp >>= 1; }`, its first
argument bounding the number of iterations. -/
def count_bits_loop : Nat → Nat → Nat → Nat
  | 0, _, n => n
  | k + 1, tmp, n => if tmp ≠ 0 then count_bits_loop k (tmp >>> 1) (n + (tmp &&& 1)) else n

/-- The number `n` found for `mask`: `mask` is a positive 32-bit `int`, so the loop
ends within 32 iterations (`count_bits_loop_fuel` below). -/
def count_bits (mask : Nat) : Nat := count_bits_loop 32 mask 0

/-- The loop that fills `combo`, with `count - i` iterations left: the buffer and the
write index `ci` when the loop ends (`i = count`, or `ci = MAX_SELECTION_SIZE`). -/
def build_combo (hand : List (Option Card)) (mask : Nat) :
    Nat → Nat → Nat → List (Option Card) → List (Option Card) × Nat
  | 0, _, ci, combo => (combo, ci)
  | k + 1, i, ci, combo =>
    if ci < MAX_SELECTION_SIZE then
      if mask &&& (1 <<< i) ≠ 0 then
        build_combo hand mask k (i + 1) (ci + 1) (combo.set ci (hand.getD i none))
      else build_combo hand mask k (i + 1) ci combo
    else (combo, ci)

/-- The variables that live across the iterations of the search loop. -/
structure SearchState where
  best_score : Nat
  best_mask : Nat
  best_count : Nat
  combo : List (Option Card)
deriving DecidableEq, Repr

/-- One iteration of the search loop of `ai_select_best_hand`, for `mask`. -/
def search_step (E : Externals) (hand : List (Option Card)) (count max_sel : Nat)
    (st : SearchState) (mask : Nat) : SearchState :=
  let n := count_bits mask
  if n > max_sel then st
  else
    let combo := (build_combo hand mask count 0 0 st.combo).1
    let s := ai_score_combo E combo n
    if s > st.best_score then ⟨s, mask, n, combo⟩
    else { st with combo := combo }

/-- The search loop of `ai_select_best_hand`, `mask` running from 1 to `(1 << count) - 1`;
`combo0` is the content of the local array `combo` when the function is entered. -/
def ai_search (E : Externals) (hand : List (Option Card)) (count : Nat)
    (combo0 : List (Option Card)) : SearchState :=
  let max_sel := if count < MAX_SELECTION_SIZE then count else MAX_SELECTION_SIZE
  let limit := 1 <<< count
  (List.range' 1 (limit - 1)).foldl (search_step E hand count max_sel) ⟨0, 0, 0, combo0⟩

/-- The loop `for (i = 0; i < count; i++) out_sel[i] = false`. -/
def clear_sel (count : Nat) (out_sel : List Bool) : List Bool :=
  (List.range count).foldl (fun o i => o.set i false) out_sel

/-- The loop `for (i = 0; i < count; i++) out_sel[i] = (best_mask & (1 << i)) != 0`. -/
def commit_sel (count best_mask : Nat) (out_sel : List Bool) : List Bool :=
  (List.range count).foldl (fun o i => o.set i (best_mask &&& (1 <<< i) != 0)) out_sel

/-- The function `ai_select_best_hand`: the returned count and the final `out_sel`. -/
def ai_select_best_hand (E : Externals) (hand : List (Option Card)) (count : Int)
    (out_sel : List Bool) (combo0 : List (Option Card)) : Int × List Bool :=
  if count ≤ 0 then (0, out_sel)
  else
    let out_sel := clear_sel count.toNat out_sel
    let st := ai_search E hand count.toNat combo0
    let out_sel := commit_sel count.toNat st.best_mask out_sel
    (st.best_count, out_sel)

/-! ## The external functions as the specification describes them -/

/-- Modelled from the spec: `hand_contains_n_of_a_kind`, absent from the sources, is
"the maximum rank-frequency value across all 13 slots". -/
def spec_n_of_a_kind (ranks : List Nat) : Nat := ranks.foldl max 0

/-- Modelled from the spec: `hand_contains_two_pair`, absent from the sources, is true
"iff at least two distinct ranks each have frequency ≥ 2". -/
def spec_two_pair (ranks : List Nat) : Bool := decide (2 ≤ ranks.countP (fun f => 2 ≤ f))

/-- Modelled from the spec: `hand_contains_straight`, absent from the sources, with the
unmodified run length 5: true iff 5 consecutive rank slots are non-zero, the Ace slot
also counting as the slot below Two. -/
def spec_straight (ranks : List Nat) : Bool :=
  (List.range 10).any (fun lo => (List.range 5).all (fun j =>
    ranks.getD ((lo + j + NUM_RANKS - 1) % NUM_RANKS) 0 != 0))

/-- Modelled from the spec: `hand_contains_flush`, absent from the sources, with the
unmodified threshold 5: true iff some suit slot is at least 5. -/
def spec_flush (suits : List Nat) : Bool := suits.any (fun f => decide (5 ≤ f))

/-- Modelled from the spec: `hand_contains_full_house`, absent from the sources, is true
iff one rank has frequency ≥ 3 and a distinct rank has frequency ≥ 2. -/
def spec_full_house (ranks : List Nat) : Bool :=
  (List.range ranks.length).any (fun i => (List.range ranks.length).any (fun j =>
    decide (i ≠ j) && decide (3 ≤ ranks.getD i 0) && decide (2 ≤ ranks.getD j 0)))

/-- Modelled from the spec: `card_get_value`, absent from the sources: a number card
is worth its rank (Two = 2, ..., Ten = 10), Jack, Queen and King 10, the Ace 11. -/
def spec_card_value (c : Card) : Nat :=
  if c.rank = ACE then 11 else if c.rank ≥ JACK then 10 else c.rank + 2

/-- Modelled from the spec: the external functions as the specification describes them. -/
def specExternals : Externals :=
  ⟨spec_n_of_a_kind, spec_two_pair, spec_straight, spec_flush, spec_full_house, spec_card_value⟩

/-! ## Vocabulary of the properties -/

/-- The flag of hand type `h` in a flag set (`false` for `NONE` and for values that are
no hand type). -/
def ContainedHandTypes.flag (ct : ContainedHandTypes) (h : Nat) : Bool :=
  match h with
  | 1 => ct.HIGH_CARD
  | 2 => ct.PAIR
  | 3 => ct.TWO_PAIR
  | 4 => ct.THREE_OF_A_KIND
  | 5 => ct.STRAIGHT
  | 6 => ct.FLUSH
  | 7 => ct.FULL_HOUSE
  | 8 => ct.FOUR_OF_A_KIND
  | 9 => ct.STRAIGHT_FLUSH
  | 10 => ct.ROYAL_FLUSH
  | 11 => ct.FIVE_OF_A_KIND
  | 12 => ct.FLUSH_HOUSE
  | 13 => ct.FLUSH_FIVE
  | _ => false

/-- Ten, Jack, Queen, King and Ace are all present in the rank table. -/
def royal_ranks (ranks : List Nat) : Bool :=
  ranks.getD TEN 0 != 0 && ranks.getD JACK 0 != 0 && ranks.getD QUEEN 0 != 0 &&
    ranks.getD KING 0 != 0 && ranks.getD ACE 0 != 0

/-- The predicate of each category as the specification words it, `n` being the maximum
rank frequency; the straight, flush and full-house predicates are those of `E`. -/
def category_holds (E : Externals) (ranks suits : List Nat) (h : Nat) : Bool :=
  let n := ranks.foldl max 0
  match h with
  | 1 => true
  | 2 => decide (n ≥ 2)
  | 3 => decide (n ≥ 2) && decide (2 ≤ ranks.countP (fun f => 2 ≤ f))
  | 4 => decide (n ≥ 3)
  | 5 => E.hand_contains_straight ranks
  | 6 => E.hand_contains_flush suits
  | 7 => decide (n ≥ 3) && E.hand_contains_full_house ranks
  | 8 => decide (n ≥ 4)
  | 9 => E.hand_contains_straight ranks && E.hand_contains_flush suits
  | 10 => (E.hand_contains_straight ranks && E.hand_contains_flush suits) && royal_ranks ranks
  | 11 => decide (n ≥ 5)
  | 12 => E.hand_contains_flush suits &&
      (decide (n ≥ 3) && E.hand_contains_full_house ranks)
  | 13 => E.hand_contains_flush suits && decide (n ≥ 5)
  | _ => false

/-- The positions below `count` whose bit is set in `mask`, in ascending order. -/
def mask_positions (count mask : Nat) : List Nat :=
  (List.range count).filter (fun i => mask.testBit i)

/-- The ordered sub-list of the hand that `mask` stands for. -/
def mask_cards (hand : List (Option Card)) (count mask : Nat) : List (Option Card) :=
  (mask_positions count mask).map (fun i => hand.getD i none)

/-- The cards of the hand at the positions `i .. i + k - 1` whose bit is set in `mask`. -/
def picked_from (hand : List (Option Card)) (mask i k : Nat) : List (Option Card) :=
  ((List.range' i k).filter (fun j => mask.testBit j)).map (fun j => hand.getD j none)

/-- The population count of `mask` over the positions below `count`. -/
def popcount (count mask : Nat) : Nat := (mask_positions count mask).length

/-- The combo score of the subset of hand positions that `mask` stands for. -/
def mask_score (E : Externals) (hand : List (Option Card)) (count mask : Nat) : Nat :=
  ai_score_combo E (mask_cards hand count mask) (popcount count mask)

/-- A candidate of the search: a non-empty subset of the `count` positions with at most
`min(count, MAX_SELECTION_SIZE)` cards. -/
def admissible (count mask : Nat) : Prop :=
  1 ≤ mask ∧ mask < 2 ^ count ∧ popcount count mask ≤ min count MAX_SELECTION_SIZE

instance (count mask : Nat) : Decidable (admissible count mask) :=
  inferInstanceAs (Decidable (1 ≤ mask ∧ mask < 2 ^ count ∧
    popcount count mask ≤ min count MAX_SELECTION_SIZE))

/-- The positions below `count` that `out_sel` marks true, in ascending order. -/
def selected_positions (count : Nat) (out_sel : List Bool) : List Nat :=
  (List.range count).filter (fun i => out_sel.getD i false)

/-- The ordered sub-list of the hand that `out_sel` marks true. -/
def selected_cards (hand : List (Option Card)) (count : Nat) (out_sel : List Bool) :
    List (Option Card) :=
  (selected_positions count out_sel).map (fun i => hand.getD i none)

/-- The chips of a sub-list before any reduction modulo `2 ^ 32`: the base chips of its
hand type plus the chip values of its non-null cards. -/
def chip_total (E : Externals) (cards : List (Option Card)) (count : Int) : Nat :=
  (ai_hand_base.getD (ai_compute_hand_type E cards count) ⟨0, 0⟩).chips +
    (((cards.take count.toNat).filterMap id).map E.card_get_value).sum

/-- What the search loop has established once the masks `1 .. N` are done. -/
def search_inv (E : Externals) (hand : List (Option Card)) (count max_sel N : Nat)
    (st : SearchState) : Prop :=
  st.combo.length = MAX_SELECTION_SIZE ∧
  (∀ m, 1 ≤ m → m ≤ N → popcount count m ≤ max_sel → mask_score E hand count m ≤ st.best_score) ∧
  (st.best_score = 0 → st.best_mask = 0 ∧ st.best_count = 0) ∧
  (0 < st.best_score →
    1 ≤ st.best_mask ∧ st.best_mask ≤ N ∧ popcount count st.best_mask ≤ max_sel ∧
    mask_score E hand count st.best_mask = st.best_score ∧
    st.best_count = popcount count st.best_mask ∧
    ∀ m, 1 ≤ m → m < st.best_mask → popcount count m ≤ max_sel →
      mask_score E hand count m < st.best_score)

/-- The final `out_sel` marks, among the positions below `count`, exactly the set bits
of `w`: `w` is the winning bit-mask. -/
def marks (out_sel : List Bool) (count w : Nat) : Prop :=
  ∀ i, i < count → out_sel.getD i false = w.testBit i

/-- The mask `w` is the numerically smallest admissible mask that attains the maximum
combo score over the admissible masks. -/
def is_first_best (E : Externals) (hand : List (Option Card)) (count w : Nat) : Prop :=
  admissible count w ∧
  (∀ m, admissible count m → mask_score E hand count m ≤ mask_score E hand count w) ∧
  (∀ m, admissible count m → mask_score E hand count m = mask_score E hand count w → w ≤ m)

/-- A hand of three cards: the Three of clubs, the Three of diamonds, the Nine of spades
(ranks numbered from Two = 0). -/
def pairHand : List (Option Card) := [some ⟨1, 0⟩, some ⟨1, 1⟩, some ⟨7, 2⟩]

/-- A hand of eight Fives, each of the four suits twice. -/
def eightFives : List (Option Card) :=
  [some ⟨3, 0⟩, some ⟨3, 1⟩, some ⟨3, 2⟩, some ⟨3, 3⟩,
   some ⟨3, 0⟩, some ⟨3, 1⟩, some ⟨3, 2⟩, some ⟨3, 3⟩]

/-- The largest chip value of the data model taken here: the chip value of a card is a
small non-negative integer (2 to 11 in the game), which fits a byte. -/
def MAX_CHIP_VALUE : Nat := 255

/-- Every card of `cards` has a chip value of the data model, at most
`MAX_CHIP_VALUE`. -/
def small_values (E : Externals) (cards : List (Option Card)) : Prop :=
  ∀ c, some c ∈ cards → E.card_get_value c ≤ MAX_CHIP_VALUE

/-- Modelled from the spec: the external functions as the specification describes them,
with `f` for `card_get_value`. -/
def valExternals (f : Card → Nat) : Externals :=
  ⟨spec_n_of_a_kind, spec_two_pair, spec_straight, spec_flush, spec_full_house, f⟩

/-- The hand 2♣ 2♦ 7♠ 7♥ 7♦ (ranks numbered from Two = 0; suits numbered clubs,
diamonds, spades, hearts). -/
def fullHouseHand : List (Option Card) :=
  [some ⟨0, 0⟩, some ⟨0, 1⟩, some ⟨5, 2⟩, some ⟨5, 3⟩, some ⟨5, 1⟩]

/-- The hand 3♣ 3♦ 9♠ K♥ 2♦. -/
def pairScenario : List (Option Card) :=
  [some ⟨1, 0⟩, some ⟨1, 1⟩, some ⟨7, 2⟩, some ⟨11, 3⟩, some ⟨0, 1⟩]

/-- The hand A♠ K♠ Q♠ J♠ 10♠. -/
def royalHand : List (Option Card) :=
  [some ⟨12, 2⟩, some ⟨11, 2⟩, some ⟨10, 2⟩, some ⟨9, 2⟩, some ⟨8, 2⟩]

/-- The first `count` handles with the null handles removed. -/
def live_handles (cards : List (Option Card)) (count : Nat) : List (Option Card) :=
  (cards.take count).filter Option.isSome

/-- A hand of cards that all have the rank `r`, one card per entry of `suits`. -/
def same_rank_hand (r : Nat) (suits : List Nat) : List (Option Card) :=
  suits.map (fun s => some ⟨r, s⟩)

/-- One of the two tables of the scanning loop taken alone: the counter of slot
`key c` is incremented for every non-null card `c`. -/
def tally (key : Card → Nat) (t : List Nat) (l : List (Option Card)) : List Nat :=
  l.foldl (fun t h => match h with
    | some c => u8_incr t (key c)
    | none => t) t

/-- The array accesses of the loop that fills `combo`, in the order they are made: for
every assignment `combo[ci++] = hand[i]` the pair of the index written in `combo` and
the index read in `hand`. The arguments are those of `build_combo`. -/
def build_combo_accesses (mask : Nat) : Nat → Nat → Nat → List (Nat × Nat)
  | 0, _, _ => []
  | k + 1, i, ci =>
    if ci < MAX_SELECTION_SIZE then
      if mask &&& (1 <<< i) ≠ 0 then (ci, i) :: build_combo_accesses mask k (i + 1) (ci + 1)
      else build_combo_accesses mask k (i + 1) ci
    else []

end AiPlayer

namespace DebugPicker

/-! ## The joker picker of `source/debug.c`

`int` variables are integers (the values met stay far from the limits of 32 bits), the
`u16` key words are naturals below `2 ^ 16`, and the C operator `%` is `Int.tmod`, which
truncates toward zero. Drawing, the display register and the list of held jokers are
not part of the picker state and are left out. -/

/-- The key masks of `tonc.h` that `debug_process_picker_input` tests. The header is
not part of the sources: the masks are parameters. -/
structure KeyMasks where
  KEY_A : Nat
  KEY_B : Nat
  KEY_UP : Nat
  KEY_DOWN : Nat
  KEY_L : Nat
  KEY_R : Nat
  KEY_MASK : Nat

/-- The key masks with the values of libtonc. -/
def toncKeys : KeyMasks := ⟨0x0001, 0x0002, 0x0040, 0x0080, 0x0200, 0x0100, 0x03FF⟩

def PICKER_VISIBLE_ROWS : Int := 16
def PICKER_HEADER_ROWS : Int := 2
def PICKER_BODY_ROWS : Int := PICKER_VISIBLE_ROWS - PICKER_HEADER_ROWS

/-- The static variables of `debug.c` that `debug_process_picker_input` reads and
writes. -/
structure PickerState where
  overlay_active : Bool
  picker_cursor : Int
  picker_scroll_top : Int
  picker_needs_redraw : Bool
  prev_keys : Nat
deriving DecidableEq, Repr

/-- The word `keys_now = ~REG_KEYINPUT & KEY_MASK`, a `u16`. -/
def keys_now_of (K : KeyMasks) (reg_keyinput : Nat) : Nat :=
  ((reg_keyinput ^^^ 0xFFFF) &&& K.KEY_MASK) % 2 ^ 16

/-- The word `keys_hit = keys_now & ~prev_keys`, a `u16`. -/
def keys_hit_of (K : KeyMasks) (reg_keyinput prev_keys : Nat) : Nat :=
  keys_now_of K reg_keyinput &&& (prev_keys ^^^ 0xFFFF)

/-- Lines 283 to 295 of `debug_process_picker_input`: the cursor moves one row up. -/
def picker_key_up (total_jokers : Int) (st : PickerState) : PickerState :=
  if total_jokers > 0 then
    let cursor := if st.picker_cursor = 0 then total_jokers - 1 else st.picker_cursor - 1
    let top :=
      if cursor < st.picker_scroll_top then cursor
      else if cursor ≥ st.picker_scroll_top + PICKER_BODY_ROWS then
        cursor - PICKER_BODY_ROWS + 1
      else st.picker_scroll_top
    { st with picker_cursor := cursor, picker_scroll_top := top }
  else st

/-- Lines 300 to 311 of `debug_process_picker_input`: the cursor moves one row down. -/
def picker_key_down (total_jokers : Int) (st : PickerState) : PickerState :=
  if total_jokers > 0 then
    let cursor := if st.picker_cursor ≥ total_jokers - 1 then 0 else st.picker_cursor + 1
    let top :=
      if cursor ≥ st.picker_scroll_top + PICKER_BODY_ROWS then cursor - PICKER_BODY_ROWS + 1
      else if cursor < st.picker_scroll_top then cursor
      else st.picker_scroll_top
    { st with picker_cursor := cursor, picker_scroll_top := top }
  else st

/-- Lines 318 to 325 of `debug_process_picker_input`: the cursor moves one page up. -/
def picker_key_l (total_jokers : Int) (st : PickerState) : PickerState :=
  if total_jokers > 0 then
    let cursor := Int.tmod (st.picker_cursor - PICKER_BODY_ROWS + total_jokers) total_jokers
    let top :=
      if cursor < st.picker_scroll_top then cursor
      else if cursor ≥ st.picker_scroll_top + PICKER_BODY_ROWS then
        cursor - PICKER_BODY_ROWS + 1
      else st.picker_scroll_top
    { st with picker_cursor := cursor, picker_scroll_top := top }
  else st

/-- Lines 330 to 337 of `debug_process_picker_input`: the cursor moves one page down. -/
def picker_key_r (total_jokers : Int) (st : PickerState) : PickerState :=
  if total_jokers > 0 then
    let cursor := Int.tmod (st.picker_cursor + PICKER_BODY_ROWS) total_jokers
    let top :=
      if cursor ≥ st.picker_scroll_top + PICKER_BODY_ROWS then cursor - PICKER_BODY_ROWS + 1
      else if cursor < st.picker_scroll_top then cursor
      else st.picker_scroll_top
    { st with picker_cursor := cursor, picker_scroll_top := top }
  else st

/-- The function `debug_process_picker_input`, `total_jokers` being what
`get_joker_registry_size` returns and `reg_keyinput` the content of `REG_KEYINPUT`.
The call of `debug_draw_picker` at the end clears `picker_needs_redraw`. -/
def debug_process_picker_input (K : KeyMasks) (total_jokers : Int) (reg_keyinput : Nat)
    (st : PickerState) : PickerState :=
  let keys_now := keys_now_of K reg_keyinput
  let keys_hit := keys_hit_of K reg_keyinput st.prev_keys
  if keys_hit &&& K.KEY_B ≠ 0 then
    { st with overlay_active := false, prev_keys := keys_now }
  else
    let st : PickerState :=
      if keys_hit &&& K.KEY_UP ≠ 0 then
        { picker_key_up total_jokers st with picker_needs_redraw := true }
      else st
    let st : PickerState :=
      if keys_hit &&& K.KEY_DOWN ≠ 0 then
        { picker_key_down total_jokers st with picker_needs_redraw := true }
      else st
    let st : PickerState :=
      if keys_hit &&& K.KEY_L ≠ 0 then
        { picker_key_l total_jokers st with picker_needs_redraw := true }
      else st
    let st : PickerState :=
      if keys_hit &&& K.KEY_R ≠ 0 then
        { picker_key_r total_jokers st with picker_needs_redraw := true }
      else st
    let st : PickerState :=
      if keys_hit &&& K.KEY_A ≠ 0 then { st with picker_needs_redraw := true } else st
    let st : PickerState := { st with prev_keys := keys_now }
    if st.picker_needs_redraw then { st with picker_needs_redraw := false } else st

/-- The cursor invariant of the picker: the cursor is a display index of the registry
and lies in the window of `PICKER_BODY_ROWS` rows that starts at the scroll top. -/
def cursor_ok (total_jokers : Int) (st : PickerState) : Prop :=
  0 ≤ st.picker_cursor ∧ st.picker_cursor < total_jokers ∧
  st.picker_scroll_top ≤ st.picker_cursor ∧
  st.picker_cursor < st.picker_scroll_top + PICKER_BODY_ROWS

instance (total_jokers : Int) (st : PickerState) : Decidable (cursor_ok total_jokers st) :=
  inferInstanceAs (Decidable (0 ≤ st.picker_cursor ∧ st.picker_cursor < total_jokers ∧
    st.picker_scroll_top ≤ st.picker_cursor ∧
    st.picker_cursor < st.picker_scroll_top + PICKER_BODY_ROWS))

end DebugPicker

namespace AiPlayer

/-! ## The classifier -/

theorem contained_hand_types_eq (E : Externals) (ranks suits : List Nat) :
    contained_hand_types E ranks suits =
      ⟨true,
       decide (E.hand_contains_n_of_a_kind ranks % 256 ≥ 2),
       decide (E.hand_contains_n_of_a_kind ranks % 256 ≥ 2) && E.hand_contains_two_pair ranks,
       decide (E.hand_contains_n_of_a_kind ranks % 256 ≥ 3),
       E.hand_contains_straight ranks,
       E.hand_contains_flush suits,
       decide (E.hand_contains_n_of_a_kind ranks % 256 ≥ 3) && E.hand_contains_full_house ranks,
       decide (E.hand_contains_n_of_a_kind ranks % 256 ≥ 4),
       E.hand_contains_straight ranks && E.hand_contains_flush suits,
       E.hand_contains_straight ranks && E.hand_contains_flush suits && royal_ranks ranks,
       decide (E.hand_contains_n_of_a_kind ranks % 256 ≥ 5),
       E.hand_contains_flush suits &&
         (decide (E.hand_contains_n_of_a_kind ranks % 256 ≥ 3) && E.hand_contains_full_house ranks),
       E.hand_contains_flush suits && decide (E.hand_contains_n_of_a_kind ranks % 256 ≥ 5)⟩ := by
  unfold contained_hand_types royal_ranks
  generalize E.hand_contains_n_of_a_kind ranks % 256 = n
  generalize (ranks.getD TEN 0 != 0 && ranks.getD JACK 0 != 0 && ranks.getD QUEEN 0 != 0 &&
    ranks.getD KING 0 != 0 && ranks.getD ACE 0 != 0) = royal
  rcases n with _ | _ | _ | _ | _ | n <;>
  cases E.hand_contains_two_pair ranks <;> cases E.hand_contains_straight ranks <;>
  cases E.hand_contains_flush suits <;> cases E.hand_contains_full_house ranks <;>
  cases royal <;> first | rfl | simp [ContainedHandTypes.zero]

theorem shift_and_one_ne_zero (v h : Nat) : ((v >>> h) &&& 1 ≠ 0) ↔ v.testBit h = true := by
  unfold Nat.testBit
  rw [Nat.land_comm]
  simp

theorem and_shift_ne_zero (mask i : Nat) : (mask &&& (1 <<< i) ≠ 0) ↔ mask.testBit i = true := by
  rw [Nat.one_shiftLeft, Nat.and_two_pow]
  cases mask.testBit i <;> simp

/-- The reduction loop returns the highest set bit below its bound (plus one), or `NONE`. -/
theorem highest_hand_type_spec (v : Nat) (k : Nat) :
    highest_hand_type v k ≤ k ∧
    (highest_hand_type v k ≠ 0 → v.testBit (highest_hand_type v k - 1) = true) ∧
    (∀ j, highest_hand_type v k ≤ j → j < k → v.testBit j = false) := by
  induction k with
  | zero => simp [highest_hand_type, NONE]
  | succ k ih =>
    unfold highest_hand_type
    by_cases hb : v.testBit k = true
    · rw [if_pos ((shift_and_one_ne_zero v k).2 hb)]
      refine ⟨le_refl _, fun _ => by simpa using hb, fun j h1 h2 => by omega⟩
    · rw [if_neg (fun h => hb ((shift_and_one_ne_zero v k).1 h))]
      obtain ⟨h1, h2, h3⟩ := ih
      refine ⟨by omega, h2, fun j hj hjk => ?_⟩
      by_cases hjk2 : j = k
      · subst hjk2; simpa using hb
      · exact h3 j hj (by omega)

theorem value_testBit (ct : ContainedHandTypes) (h : Nat) (h1 : 1 ≤ h) (h13 : h ≤ 13) :
    ct.value.testBit (h - 1) = ct.flag h := by
  unfold ContainedHandTypes.value
  interval_cases h <;>
    simp [ContainedHandTypes.flag, Nat.testBit_bit_succ, Nat.testBit_bit_zero]

/-- The hand type returned for a flag set: its flag is set and no stronger flag is. -/
theorem highest_flag (ct : ContainedHandTypes) (hc : ct.HIGH_CARD = true) :
    1 ≤ highest_hand_type ct.value FLUSH_FIVE ∧ highest_hand_type ct.value FLUSH_FIVE ≤ 13 ∧
    ct.flag (highest_hand_type ct.value FLUSH_FIVE) = true ∧
    ∀ h, highest_hand_type ct.value FLUSH_FIVE < h → h ≤ 13 → ct.flag h = false := by
  obtain ⟨h1, h2, h3⟩ := highest_hand_type_spec ct.value FLUSH_FIVE
  have hpos : 1 ≤ highest_hand_type ct.value FLUSH_FIVE := by
    by_contra hlt
    have h0 : highest_hand_type ct.value FLUSH_FIVE = 0 := by omega
    have := h3 0 (by omega) (by simp [FLUSH_FIVE])
    have h1f := value_testBit ct 1 (le_refl _) (by norm_num)
    simp only [ContainedHandTypes.flag, hc, Nat.sub_self] at h1f
    rw [h1f] at this
    exact Bool.noConfusion this
  have h13 : highest_hand_type ct.value FLUSH_FIVE ≤ 13 := h1
  refine ⟨hpos, h13, ?_, ?_⟩
  · rw [← value_testBit ct _ hpos h13]
    exact h2 (by omega)
  · intro h hlt hle
    rw [← value_testBit ct h (by omega) hle]
    exact h3 (h - 1) (by omega) (by simp [FLUSH_FIVE]; omega)

theorem ai_compute_hand_type_pos (E : Externals) (cards : List (Option Card)) (count : Int)
    (h : 0 < count) :
    ai_compute_hand_type E cards count =
      highest_hand_type (contained_hand_types E (scan_cards cards count.toNat).ranks
        (scan_cards cards count.toNat).suits).value FLUSH_FIVE := by
  unfold ai_compute_hand_type
  rw [if_neg (by omega)]

theorem contained_high_card (E : Externals) (ranks suits : List Nat) :
    (contained_hand_types E ranks suits).HIGH_CARD = true := by
  rw [contained_hand_types_eq]

/-- The hand type of a non-empty list is between `HIGH_CARD` and `FLUSH_FIVE`. -/
theorem ai_compute_hand_type_range (E : Externals) (cards : List (Option Card)) (count : Int)
    (h : 0 < count) :
    1 ≤ ai_compute_hand_type E cards count ∧ ai_compute_hand_type E cards count ≤ 13 := by
  rw [ai_compute_hand_type_pos E cards count h]
  obtain ⟨h1, h2, _⟩ := highest_flag _ (contained_high_card E (scan_cards cards count.toNat).ranks
    (scan_cards cards count.toNat).suits)
  exact ⟨h1, h2⟩

theorem u8_incr_lt (t : List Nat) (i : Nat) (h : ∀ x, x ∈ t → x < 256) :
    ∀ x, x ∈ u8_incr t i → x < 256 := by
  intro x hx
  rcases List.mem_or_eq_of_mem_set hx with hmem | heq
  · exact h x hmem
  · rw [heq]; exact Nat.mod_lt _ (by norm_num)

theorem foldl_scan_lt (l : List (Option Card)) : ∀ (t : FreqTables),
    (∀ x, x ∈ t.ranks → x < 256) → (∀ x, x ∈ t.suits → x < 256) →
    (∀ x, x ∈ (l.foldl scan_card t).ranks → x < 256) ∧
    (∀ x, x ∈ (l.foldl scan_card t).suits → x < 256) := by
  induction l with
  | nil => intro t hr hs; exact ⟨hr, hs⟩
  | cons h l ih =>
    intro t hr hs
    cases h with
    | none => exact ih t hr hs
    | some c => exact ih _ (u8_incr_lt t.ranks c.rank hr) (u8_incr_lt t.suits c.suit hs)

/-- No counter of the two tables leaves the range of a `u8`. -/
theorem scan_cards_lt (cards : List (Option Card)) (count : Nat) :
    (∀ x, x ∈ (scan_cards cards count).ranks → x < 256) ∧
    (∀ x, x ∈ (scan_cards cards count).suits → x < 256) := by
  unfold scan_cards
  apply foldl_scan_lt
  · intro x hx; rw [List.eq_of_mem_replicate hx]; norm_num
  · intro x hx; rw [List.eq_of_mem_replicate hx]; norm_num

theorem foldl_max_lt (l : List Nat) (b : Nat) (h : ∀ x, x ∈ l → x < b) :
    ∀ a, a < b → l.foldl max a < b := by
  induction l with
  | nil => intro a ha; exact ha
  | cons x l ih =>
    intro a ha
    exact ih (fun y hy => h y (List.mem_cons_of_mem _ hy)) (max a x)
      (max_lt ha (h x (List.mem_cons_self _ _)))

/-- Claim C7: for a list of 1 to 8 cards, with `n` the maximum rank frequency and two
pair meaning two distinct ranks of frequency at least 2 (what the specification says
`hand_contains_n_of_a_kind` and `hand_contains_two_pair` compute), the hand type returned
by `ai_compute_hand_type` is a category between High Card and Flush Five whose predicate
holds, and the predicate of every stronger category fails. -/
theorem ai_compute_hand_type_strongest (E : Externals) (cards : List (Option Card))
    (count : Int) (h1 : 1 ≤ count) (h8 : count ≤ 8)
    (hn : ∀ t, E.hand_contains_n_of_a_kind t = t.foldl max 0)
    (h2 : ∀ t, E.hand_contains_two_pair t = decide (2 ≤ t.countP (fun f => 2 ≤ f))) :
    HIGH_CARD ≤ ai_compute_hand_type E cards count ∧
    ai_compute_hand_type E cards count ≤ FLUSH_FIVE ∧
    category_holds E (scan_cards cards count.toNat).ranks (scan_cards cards count.toNat).suits
      (ai_compute_hand_type E cards count) = true ∧
    ∀ h, ai_compute_hand_type E cards count < h → h ≤ FLUSH_FIVE →
      category_holds E (scan_cards cards count.toNat).ranks (scan_cards cards count.toNat).suits
        h = false := by
  have hflag : ∀ h, (contained_hand_types E (scan_cards cards count.toNat).ranks
      (scan_cards cards count.toNat).suits).flag h =
      category_holds E (scan_cards cards count.toNat).ranks
        (scan_cards cards count.toNat).suits h := by
    intro h
    have hmax : (scan_cards cards count.toNat).ranks.foldl max 0 % 256 =
        (scan_cards cards count.toNat).ranks.foldl max 0 :=
      Nat.mod_eq_of_lt (foldl_max_lt _ 256 (scan_cards_lt cards count.toNat).1 0 (by norm_num))
    rw [contained_hand_types_eq]
    unfold ContainedHandTypes.flag category_holds
    simp only [hn, h2, hmax]
  rw [ai_compute_hand_type_pos E cards count (by omega)]
  obtain ⟨a, b, c, d⟩ := highest_flag _ (contained_high_card E
    (scan_cards cards count.toNat).ranks (scan_cards cards count.toNat).suits)
  refine ⟨a, b, ?_, ?_⟩
  · rw [← hflag]; exact c
  · intro h hlt hle
    rw [← hflag]
    exact d h hlt hle

/-- Claim C7, at a concrete hand: a pair of Twos with a Seven is classified `PAIR`. -/
theorem ai_compute_hand_type_strongest_witness :
    ai_compute_hand_type specExternals [some ⟨0, 0⟩, some ⟨0, 1⟩, some ⟨5, 2⟩] 3 = PAIR ∧
    category_holds specExternals
      (scan_cards [some ⟨0, 0⟩, some ⟨0, 1⟩, some ⟨5, 2⟩] 3).ranks
      (scan_cards [some ⟨0, 0⟩, some ⟨0, 1⟩, some ⟨5, 2⟩] 3).suits
      (ai_compute_hand_type specExternals [some ⟨0, 0⟩, some ⟨0, 1⟩, some ⟨5, 2⟩] 3) = true :=
  ⟨by decide,
   (ai_compute_hand_type_strongest specExternals [some ⟨0, 0⟩, some ⟨0, 1⟩, some ⟨5, 2⟩] 3
      (by decide) (by decide) (fun _ => rfl) (fun _ => rfl)).2.2.1⟩

/-- Claim C8: in the flag set that `ai_compute_hand_type` builds from any hand, whatever
the external predicates return, Flush House implies Flush and Full House, Flush Five
implies Flush and Five of a Kind, Straight Flush implies Straight and Flush, and Royal
Flush implies Straight Flush with the rank table non-zero at Ten, Jack, Queen, King, Ace. -/
theorem contained_hand_types_closure (E : Externals) (cards : List (Option Card))
    (count : Nat) :
    ((contained_hand_types E (scan_cards cards count).ranks
        (scan_cards cards count).suits).FLUSH_HOUSE = true →
      (contained_hand_types E (scan_cards cards count).ranks
        (scan_cards cards count).suits).FLUSH = true ∧
      (contained_hand_types E (scan_cards cards count).ranks
        (scan_cards cards count).suits).FULL_HOUSE = true) ∧
    ((contained_hand_types E (scan_cards cards count).ranks
        (scan_cards cards count).suits).FLUSH_FIVE = true →
      (contained_hand_types E (scan_cards cards count).ranks
        (scan_cards cards count).suits).FLUSH = true ∧
      (contained_hand_types E (scan_cards cards count).ranks
        (scan_cards cards count).suits).FIVE_OF_A_KIND = true) ∧
    ((contained_hand_types E (scan_cards cards count).ranks
        (scan_cards cards count).suits).STRAIGHT_FLUSH = true →
      (contained_hand_types E (scan_cards cards count).ranks
        (scan_cards cards count).suits).STRAIGHT = true ∧
      (contained_hand_types E (scan_cards cards count).ranks
        (scan_cards cards count).suits).FLUSH = true) ∧
    ((contained_hand_types E (scan_cards cards count).ranks
        (scan_cards cards count).suits).ROYAL_FLUSH = true →
      (contained_hand_types E (scan_cards cards count).ranks
        (scan_cards cards count).suits).STRAIGHT_FLUSH = true ∧
      (scan_cards cards count).ranks.getD TEN 0 ≠ 0 ∧
      (scan_cards cards count).ranks.getD JACK 0 ≠ 0 ∧
      (scan_cards cards count).ranks.getD QUEEN 0 ≠ 0 ∧
      (scan_cards cards count).ranks.getD KING 0 ≠ 0 ∧
      (scan_cards cards count).ranks.getD ACE 0 ≠ 0) := by
  rw [contained_hand_types_eq]
  simp only [royal_ranks, Bool.and_eq_true, bne_iff_ne, ne_eq]
  refine ⟨?_, ?_, ?_, ?_⟩
  · rintro ⟨hf, hh⟩
    exact ⟨hf, hh⟩
  · rintro ⟨hf, h5⟩
    exact ⟨hf, h5⟩
  · rintro ⟨hs, hf⟩
    exact ⟨hs, hf⟩
  · rintro ⟨⟨hs, hf⟩, ⟨⟨⟨⟨ht, hj⟩, hq⟩, hk⟩, ha⟩⟩
    exact ⟨⟨hs, hf⟩, ht, hj, hq, hk, ha⟩

/-- Claim C9: `ai_compute_hand_type` returns `NONE` exactly when `count <= 0`; for
every `count > 0`, whatever the handles (all of them may be null), it returns a category
that is at least `HIGH_CARD`. -/
theorem ai_compute_hand_type_none_iff (E : Externals) (cards : List (Option Card))
    (count : Int) :
    (ai_compute_hand_type E cards count = NONE ↔ count ≤ 0) ∧
    (0 < count → HIGH_CARD ≤ ai_compute_hand_type E cards count) := by
  constructor
  · constructor
    · intro h
      by_contra hc
      have := (ai_compute_hand_type_range E cards count (by omega)).1
      rw [h] at this
      simp [NONE] at this
    · intro h
      simp [ai_compute_hand_type, h]
  · intro h
    exact (ai_compute_hand_type_range E cards count h).1

/-! ## The score -/

/-- Claim C10: on unsigned 32-bit `c` and `m` the guarded product of `ai_score_combo` is
0 when an operand is 0, `2 ^ 32 - 1` when the product over the naturals exceeds
`2 ^ 32 - 1` (the saturating branch being taken exactly then), the exact product
otherwise; in all cases it is `min (c * m) (2 ^ 32 - 1)`. -/
theorem protected_mult_saturates (c m : Nat) (hc : c < 2 ^ 32) (hm : m < 2 ^ 32) :
    (c = 0 ∨ m = 0 → protected_mult c m = 0) ∧
    (c * m > 2 ^ 32 - 1 → protected_mult c m = 2 ^ 32 - 1) ∧
    (c * m ≤ 2 ^ 32 - 1 → protected_mult c m = c * m) ∧
    ((c ≠ 0 ∧ m ≠ 0 ∧ c > 0xFFFFFFFF / m) ↔ c * m > 2 ^ 32 - 1) ∧
    protected_mult c m = min (c * m) (2 ^ 32 - 1) := by
  have key : ∀ (_ : 0 < m), (c > 0xFFFFFFFF / m ↔ c * m > 2 ^ 32 - 1) := by
    intro hm0
    rw [gt_iff_lt, Nat.div_lt_iff_lt_mul hm0]
    norm_num
  refine ⟨?_, ?_, ?_, ?_, ?_⟩
  · intro h
    simp [protected_mult, h]
  · intro h
    have hc0 : c ≠ 0 := by rintro rfl; simp at h
    have hm0 : m ≠ 0 := by rintro rfl; simp at h
    have := (key (Nat.pos_of_ne_zero hm0)).2 h
    simp [protected_mult, hc0, hm0, this]
  · intro h
    by_cases hc0 : c = 0
    · simp [protected_mult, hc0]
    by_cases hm0 : m = 0
    · simp [protected_mult, hm0]
    have hk := key (Nat.pos_of_ne_zero hm0)
    have hn : ¬ c > 0xFFFFFFFF / m := by rw [hk]; omega
    have hlt : c * m < 2 ^ 32 := by omega
    simp only [protected_mult, hc0, hm0, or_self, if_false, hn]
    exact Nat.mod_eq_of_lt hlt
  · constructor
    · rintro ⟨_, hm0, h⟩
      exact (key (Nat.pos_of_ne_zero hm0)).1 h
    · intro h
      have hc0 : c ≠ 0 := by rintro rfl; simp at h
      have hm0 : m ≠ 0 := by rintro rfl; simp at h
      exact ⟨hc0, hm0, (key (Nat.pos_of_ne_zero hm0)).2 h⟩
  · by_cases hc0 : c = 0
    · simp [protected_mult, hc0]
    by_cases hm0 : m = 0
    · simp [protected_mult, hm0]
    have hk := key (Nat.pos_of_ne_zero hm0)
    by_cases h : c > 0xFFFFFFFF / m
    · have h2 := hk.1 h
      simp only [protected_mult, hc0, hm0, or_self, if_false, h, if_true]
      omega
    · have h2 : ¬ c * m > 2 ^ 32 - 1 := fun h3 => h (hk.2 h3)
      have hlt : c * m < 2 ^ 32 := by omega
      simp only [protected_mult, hc0, hm0, or_self, if_false, h]
      rw [Nat.mod_eq_of_lt hlt]
      omega

/-- Claim C10, at concrete operands: `65536 * 65536 = 2 ^ 32` saturates to `2 ^ 32 - 1`. -/
theorem protected_mult_saturates_witness :
    protected_mult 65536 65536 = min (65536 * 65536) (2 ^ 32 - 1) ∧
    protected_mult 65536 65536 = 4294967295 :=
  ⟨(protected_mult_saturates 65536 65536 (by norm_num) (by norm_num)).2.2.2.2, by decide⟩

/-! ## The search loop -/

theorem count_bits_loop_eq (k : Nat) : ∀ (tmp n : Nat), tmp < 2 ^ k →
    count_bits_loop k tmp n = n + ((List.range k).filter (fun i => tmp.testBit i)).length := by
  induction k with
  | zero =>
    intro tmp n _
    simp [count_bits_loop]
  | succ k ih =>
    intro tmp n h
    unfold count_bits_loop
    by_cases h0 : tmp = 0
    · subst h0
      simp
    · rw [if_pos h0]
      have hlt : tmp >>> 1 < 2 ^ k := by
        rw [Nat.shiftRight_eq_div_pow, pow_one]
        rw [pow_succ] at h
        omega
      have hcomp : ((fun i => tmp.testBit i) ∘ Nat.succ) = fun i => (tmp >>> 1).testBit i := by
        funext i
        simp [Nat.testBit_succ, Nat.shiftRight_eq_div_pow]
      rw [ih _ _ hlt, List.range_succ_eq_map, List.filter_cons, List.filter_map, hcomp,
        Nat.and_one_is_mod, Nat.testBit_zero]
      rcases Nat.mod_two_eq_zero_or_one tmp with hm | hm <;> simp [hm]
      omega

theorem filter_testBit_range_mono (mask j k : Nat) (h : mask < 2 ^ j) (hjk : j ≤ k) :
    (List.range k).filter (fun i => mask.testBit i) =
      (List.range j).filter (fun i => mask.testBit i) := by
  obtain ⟨d, rfl⟩ := Nat.exists_eq_add_of_le hjk
  clear hjk
  induction d with
  | zero => rfl
  | succ d ih =>
    rw [← Nat.add_assoc, List.range_succ, List.filter_append, ih]
    have : mask.testBit (j + d) = false := by
      apply Nat.testBit_lt_two_pow
      exact lt_of_lt_of_le h (Nat.pow_le_pow_right (by norm_num) (by omega))
    simp [this]

/-- The bit-counting loop ends before its 32 iterations are used up and leaves the
population count of the mask. -/
theorem count_bits_eq_popcount (count mask : Nat) (hc : count ≤ 32) (h : mask < 2 ^ count) :
    count_bits mask = popcount count mask := by
  have h32 : mask < 2 ^ 32 := lt_of_lt_of_le h (Nat.pow_le_pow_right (by norm_num) hc)
  unfold count_bits popcount mask_positions
  rw [count_bits_loop_eq 32 mask 0 h32, filter_testBit_range_mono mask count 32 h hc]
  simp

/-- More iterations than the 32 allowed change nothing: the loop has ended by itself. -/
theorem count_bits_loop_fuel (mask extra : Nat) (h : mask < 2 ^ 32) :
    count_bits_loop (32 + extra) mask 0 = count_bits mask := by
  have h2 : mask < 2 ^ (32 + extra) :=
    lt_of_lt_of_le h (Nat.pow_le_pow_right (by norm_num) (by omega))
  unfold count_bits
  rw [count_bits_loop_eq _ mask 0 h2, count_bits_loop_eq 32 mask 0 h,
    filter_testBit_range_mono mask 32 (32 + extra) h (by omega)]

theorem take_succ_set {α : Type} (x : α) : ∀ (l : List α) (n : Nat), n < l.length →
    (l.set n x).take (n + 1) = l.take n ++ [x] := by
  intro l
  induction l with
  | nil => intro n h; simp at h
  | cons a l ih =>
    intro n h
    cases n with
    | zero => simp
    | succ n =>
      simp only [List.set_cons_succ, List.take_succ_cons, List.cons_append, List.cons.injEq,
        true_and]
      exact ih n (by simpa using h)

theorem picked_from_zero (hand : List (Option Card)) (count mask : Nat) :
    picked_from hand mask 0 count = mask_cards hand count mask := by
  unfold picked_from mask_cards mask_positions
  rw [List.range_eq_range']

/-- The loop that fills `combo`: when the set bits still to come fit in the buffer, the
write index ends at `ci` plus their number and the buffer holds, after its first `ci`
entries, the hand cards at these bits in ascending position order. -/
theorem build_combo_spec (hand : List (Option Card)) (mask : Nat) (k : Nat) :
    ∀ (i ci : Nat) (combo : List (Option Card)),
    ci + (picked_from hand mask i k).length ≤ MAX_SELECTION_SIZE →
    ci + (picked_from hand mask i k).length ≤ combo.length →
    (build_combo hand mask k i ci combo).2 = ci + (picked_from hand mask i k).length ∧
    (build_combo hand mask k i ci combo).1.length = combo.length ∧
    (build_combo hand mask k i ci combo).1.take (ci + (picked_from hand mask i k).length) =
      combo.take ci ++ picked_from hand mask i k := by
  induction k with
  | zero =>
    intro i ci combo _ _
    simp [build_combo, picked_from]
  | succ k ih =>
    intro i ci combo hmax hlen
    have hstep : picked_from hand mask i (k + 1) =
        if mask.testBit i = true then hand.getD i none :: picked_from hand mask (i + 1) k
        else picked_from hand mask (i + 1) k := by
      unfold picked_from
      rw [List.range'_succ, List.filter_cons]
      split <;> simp
    by_cases hb : mask.testBit i = true
    · rw [hstep, if_pos hb] at hmax hlen ⊢
      simp only [List.length_cons] at hmax hlen ⊢
      have hci : ci < MAX_SELECTION_SIZE := by omega
      unfold build_combo
      rw [if_pos hci, if_pos ((and_shift_ne_zero mask i).2 hb)]
      obtain ⟨a, b, c⟩ := ih (i + 1) (ci + 1) (combo.set ci (hand.getD i none))
        (by omega) (by rw [List.length_set]; omega)
      refine ⟨by rw [a]; omega, by rw [b, List.length_set], ?_⟩
      have e : ci + ((picked_from hand mask (i + 1) k).length + 1) =
          ci + 1 + (picked_from hand mask (i + 1) k).length := by omega
      rw [e, c, take_succ_set _ _ _ (by omega)]
      simp
    · rw [hstep, if_neg hb] at hmax hlen ⊢
      unfold build_combo
      by_cases hci : ci < MAX_SELECTION_SIZE
      · rw [if_pos hci, if_neg (fun h => hb ((and_shift_ne_zero mask i).1 h))]
        exact ih (i + 1) ci combo hmax hlen
      · rw [if_neg hci]
        have h0 : (picked_from hand mask (i + 1) k).length = 0 := by omega
        have hnil : picked_from hand mask (i + 1) k = [] := List.length_eq_zero.1 h0
        simp [hnil]

/-- The score of a sub-list depends only on the `n` entries that `ai_score_combo` reads. -/
theorem ai_score_combo_take (E : Externals) (cards : List (Option Card)) (n : Nat) :
    ai_score_combo E (cards.take n) n = ai_score_combo E cards n := by
  simp [ai_score_combo, ai_compute_hand_type, scan_cards, List.take_take]

/-- The score found for an admissible mask is the score of the sub-list it stands for,
whatever the buffer `combo` held before. -/
theorem build_combo_score (E : Externals) (hand : List (Option Card)) (count mask : Nat)
    (combo : List (Option Card)) (hp : popcount count mask ≤ MAX_SELECTION_SIZE)
    (hlen : combo.length = MAX_SELECTION_SIZE) :
    ai_score_combo E (build_combo hand mask count 0 0 combo).1 (popcount count mask) =
      mask_score E hand count mask ∧
    (build_combo hand mask count 0 0 combo).1.length = MAX_SELECTION_SIZE ∧
    (build_combo hand mask count 0 0 combo).2 = popcount count mask := by
  have hpl : (picked_from hand mask 0 count).length = popcount count mask := by
    rw [picked_from_zero]; simp [mask_cards, popcount]
  obtain ⟨a, b, c⟩ := build_combo_spec hand mask count 0 0 combo
    (by rw [hpl]; omega) (by rw [hpl]; omega)
  rw [hpl] at a c
  simp only [Nat.zero_add, List.take_zero, List.nil_append] at a c
  refine ⟨?_, by rw [b, hlen], a⟩
  unfold mask_score
  rw [← ai_score_combo_take, c, picked_from_zero]

/-- One iteration of the search loop keeps `search_inv`. -/
theorem search_step_inv (E : Externals) (hand : List (Option Card)) (count max_sel N : Nat)
    (st : SearchState) (hc : count ≤ 32) (hms : max_sel ≤ MAX_SELECTION_SIZE)
    (hN : N + 1 < 2 ^ count) (inv : search_inv E hand count max_sel N st) :
    search_inv E hand count max_sel (N + 1) (search_step E hand count max_sel st (N + 1)) := by
  obtain ⟨hlen, hup, hzero, hpos⟩ := inv
  unfold search_step
  simp only [count_bits_eq_popcount count (N + 1) hc hN, Int.toNat_ofNat]
  by_cases hadm : popcount count (N + 1) > max_sel
  · rw [if_pos hadm]
    refine ⟨hlen, ?_, hzero, ?_⟩
    · intro m h1 hm hp
      have : m ≠ N + 1 := by rintro rfl; omega
      exact hup m h1 (by omega) hp
    · intro h
      obtain ⟨a, b, c, d, e, f⟩ := hpos h
      exact ⟨a, by omega, c, d, e, f⟩
  · rw [if_neg hadm]
    obtain ⟨hs, hl, _⟩ := build_combo_score E hand count (N + 1) st.combo (by omega) hlen
    rw [hs]
    by_cases hgt : mask_score E hand count (N + 1) > st.best_score
    · rw [if_pos hgt]
      refine ⟨hl, ?_, ?_, ?_⟩
      · intro m h1 hm hp
        by_cases heq : m = N + 1
        · subst heq; exact le_refl _
        · exact le_of_lt (lt_of_le_of_lt (hup m h1 (by omega) hp) hgt)
      · intro h0
        simp only at h0
        omega
      · intro _
        dsimp only
        refine ⟨by omega, le_refl _, by omega, rfl, rfl, ?_⟩
        intro m h1 hm hp
        exact lt_of_le_of_lt (hup m h1 (by omega) hp) hgt
    · rw [if_neg hgt]
      refine ⟨hl, ?_, hzero, ?_⟩
      · intro m h1 hm hp
        by_cases heq : m = N + 1
        · subst heq; simp only; omega
        · exact hup m h1 (by omega) hp
      · intro h
        obtain ⟨a, b, c, d, e, f⟩ := hpos h
        exact ⟨a, by simp only; omega, c, d, e, f⟩

theorem search_fold_inv (E : Externals) (hand : List (Option Card)) (count max_sel : Nat)
    (combo0 : List (Option Card)) (hc : count ≤ 32) (hms : max_sel ≤ MAX_SELECTION_SIZE)
    (h0 : combo0.length = MAX_SELECTION_SIZE) : ∀ N, N < 2 ^ count →
    search_inv E hand count max_sel N
      ((List.range' 1 N).foldl (search_step E hand count max_sel) ⟨0, 0, 0, combo0⟩) := by
  intro N
  induction N with
  | zero =>
    intro _
    refine ⟨h0, ?_, fun _ => ⟨rfl, rfl⟩, ?_⟩
    · intro m h1 hm; omega
    · intro h; simp at h
  | succ N ih =>
    intro hN
    rw [List.range'_concat, List.foldl_append]
    simp only [one_mul, List.foldl_cons, List.foldl_nil]
    rw [Nat.add_comm 1 N]
    exact search_step_inv E hand count max_sel N _ hc hms hN (ih (by omega))

/-- What the search loop of `ai_select_best_hand` leaves for a hand of at most 32 cards. -/
theorem ai_search_inv (E : Externals) (hand : List (Option Card)) (count : Nat)
    (combo0 : List (Option Card)) (hc : count ≤ 32)
    (h0 : combo0.length = MAX_SELECTION_SIZE) :
    search_inv E hand count (min count MAX_SELECTION_SIZE) (2 ^ count - 1)
      (ai_search E hand count combo0) := by
  unfold ai_search
  have hmin : (if count < MAX_SELECTION_SIZE then count else MAX_SELECTION_SIZE) =
      min count MAX_SELECTION_SIZE := by
    split <;> omega
  simp only [hmin, Nat.one_shiftLeft]
  exact search_fold_inv E hand count _ combo0 hc (Nat.min_le_right _ _) h0 _
    (Nat.sub_lt (Nat.pos_pow_of_pos _ (by norm_num)) (by norm_num))

/-! ## Writing the selection -/

theorem fold_set_length (f : Nat → Bool) (n : Nat) (out : List Bool) :
    ((List.range n).foldl (fun o i => o.set i (f i)) out).length = out.length := by
  induction n with
  | zero => rfl
  | succ n ih => rw [List.range_succ, List.foldl_append]; simp [ih]

theorem fold_set_getD (f : Nat → Bool) (n : Nat) (out : List Bool) (j : Nat) :
    ((List.range n).foldl (fun o i => o.set i (f i)) out).getD j false =
      if j < n ∧ j < out.length then f j else out.getD j false := by
  induction n with
  | zero => simp
  | succ n ih =>
    rw [List.range_succ, List.foldl_append]
    simp only [List.foldl_cons, List.foldl_nil]
    rw [List.getD_eq_getElem?_getD, List.getElem?_set, fold_set_length]
    by_cases hjn : n = j
    · subst hjn
      by_cases hl : n < out.length
      · simp [hl]
      · simp [hl, List.getD_eq_getElem?_getD]
        rw [List.getElem?_eq_none (by omega)]
        rfl
    · rw [if_neg hjn, ← List.getD_eq_getElem?_getD, ih]
      by_cases hj : j < n
      · have : j < n + 1 := by omega
        simp [hj, this]
      · have : ¬ j < n + 1 := by omega
        simp [hj, this]

theorem count_true_take (l : List Bool) (n : Nat) :
    (l.take n).count true = ((List.range n).filter (fun i => l.getD i false)).length := by
  induction n with
  | zero => simp
  | succ n ih =>
    rw [List.take_succ, List.count_append, ih, List.range_succ, List.filter_append,
      List.length_append]
    congr 1
    cases h : l[n]? with
    | none => simp [h, List.getD_eq_getElem?_getD]
    | some b => cases b <;> simp [h, List.getD_eq_getElem?_getD]

/-- For a positive `count` the function runs its three loops. -/
theorem ai_select_best_hand_pos (E : Externals) (hand : List (Option Card)) (n : Nat)
    (out_sel : List Bool) (combo0 : List (Option Card)) (h : 1 ≤ n) :
    ai_select_best_hand E hand n out_sel combo0 =
      (((ai_search E hand n combo0).best_count : Int),
        commit_sel n (ai_search E hand n combo0).best_mask (clear_sel n out_sel)) := by
  unfold ai_select_best_hand
  rw [if_neg (by omega)]
  simp

/-- The final content of `out_sel`: below `count` (and inside the buffer) the bits of the
winning mask, elsewhere what the caller had put. -/
theorem commit_clear_getD (n w : Nat) (out_sel : List Bool) (j : Nat) :
    (commit_sel n w (clear_sel n out_sel)).getD j false =
      if j < n ∧ j < out_sel.length then w.testBit j else out_sel.getD j false := by
  unfold commit_sel clear_sel
  rw [fold_set_getD, fold_set_length, fold_set_getD]
  by_cases h : j < n ∧ j < out_sel.length
  · rw [if_pos h, if_pos h]
    cases hb : w.testBit j
    · have : ¬ (w &&& (1 <<< j) ≠ 0) := fun hne => by
        rw [(and_shift_ne_zero w j).1 hne] at hb
        exact Bool.noConfusion hb
      simp only [ne_eq, not_not] at this
      simp [this]
    · have := (and_shift_ne_zero w j).2 hb
      simp [this]
  · rw [if_neg h, if_neg h, if_neg h]

theorem commit_clear_length (n w : Nat) (out_sel : List Bool) :
    (commit_sel n w (clear_sel n out_sel)).length = out_sel.length := by
  unfold commit_sel clear_sel
  rw [fold_set_length, fold_set_length]

/-- The positions marked in the final `out_sel` are those of the winning mask. -/
theorem selected_positions_commit (n w : Nat) (out_sel : List Bool) (h : n ≤ out_sel.length) :
    selected_positions n (commit_sel n w (clear_sel n out_sel)) = mask_positions n w := by
  unfold selected_positions mask_positions
  apply List.filter_congr
  intro i hi
  rw [List.mem_range] at hi
  rw [commit_clear_getD, if_pos ⟨hi, by omega⟩]

/-! ## The selector -/

theorem mask_positions_zero (n : Nat) : mask_positions n 0 = [] := by
  simp [mask_positions]

theorem mask_score_zero (E : Externals) (hand : List (Option Card)) (n : Nat) :
    mask_score E hand n 0 = 0 := by
  simp [mask_score, mask_cards, popcount, mask_positions_zero, ai_score_combo,
    ai_compute_hand_type, NONE]

/-- A non-zero mask below `2 ^ n` has a set bit below `n`. -/
theorem exists_bit_lt (n w : Nat) (h1 : 1 ≤ w) (h2 : w < 2 ^ n) :
    ∃ i, i < n ∧ w.testBit i = true := by
  obtain ⟨i, hi⟩ := Nat.ne_zero_implies_bit_true (show w ≠ 0 by omega)
  refine ⟨i, ?_, hi⟩
  by_contra hge
  have : w.testBit i = false :=
    Nat.testBit_lt_two_pow (lt_of_lt_of_le h2 (Nat.pow_le_pow_right (by norm_num) (by omega)))
  rw [this] at hi
  exact Bool.noConfusion hi

theorem popcount_pos (n w : Nat) (h1 : 1 ≤ w) (h2 : w < 2 ^ n) : 1 ≤ popcount n w := by
  obtain ⟨i, hi, hb⟩ := exists_bit_lt n w h1 h2
  have hmem : i ∈ mask_positions n w := by
    unfold mask_positions
    rw [List.mem_filter, List.mem_range]
    exact ⟨hi, hb⟩
  unfold popcount
  exact List.length_pos_of_mem hmem

/-- The search result in the vocabulary of the claims: the winning mask is 0 or an
admissible mask, its score is the best score, no admissible mask scores more, and no
smaller admissible mask scores as much. -/
theorem ai_search_result (E : Externals) (hand : List (Option Card)) (n : Nat)
    (combo0 : List (Option Card)) (hn : n ≤ 32) (h0 : combo0.length = MAX_SELECTION_SIZE) :
    mask_score E hand n (ai_search E hand n combo0).best_mask =
      (ai_search E hand n combo0).best_score ∧
    (ai_search E hand n combo0).best_count = popcount n (ai_search E hand n combo0).best_mask ∧
    (ai_search E hand n combo0).best_mask < 2 ^ n ∧
    popcount n (ai_search E hand n combo0).best_mask ≤ min n MAX_SELECTION_SIZE ∧
    (∀ m, admissible n m → mask_score E hand n m ≤ (ai_search E hand n combo0).best_score) ∧
    ((ai_search E hand n combo0).best_score = 0 → (ai_search E hand n combo0).best_mask = 0) ∧
    (0 < (ai_search E hand n combo0).best_score →
      admissible n (ai_search E hand n combo0).best_mask ∧
      ∀ m, admissible n m → m < (ai_search E hand n combo0).best_mask →
        mask_score E hand n m < (ai_search E hand n combo0).best_score) := by
  obtain ⟨_, hup, hzero, hpos⟩ := ai_search_inv E hand n combo0 hn h0
  have h2n : 0 < 2 ^ n := Nat.pos_pow_of_pos _ (by norm_num)
  have hupper : ∀ m, admissible n m →
      mask_score E hand n m ≤ (ai_search E hand n combo0).best_score := by
    rintro m ⟨a, b, c⟩
    exact hup m a (by omega) c
  by_cases hs : (ai_search E hand n combo0).best_score = 0
  · obtain ⟨hm, hc⟩ := hzero hs
    rw [hm, hc, hs]
    refine ⟨mask_score_zero E hand n, ?_, h2n, ?_, ?_, fun _ => rfl, fun h => by omega⟩
    · simp [popcount, mask_positions_zero]
    · simp [popcount, mask_positions_zero]
    · intro m hm2
      have := hupper m hm2
      omega
  · obtain ⟨a, b, c, d, e, f⟩ := hpos (by omega)
    refine ⟨d, e, by omega, c, hupper, fun h => absurd h hs, fun _ => ⟨⟨a, by omega, c⟩, ?_⟩⟩
    rintro m ⟨m1, _, m3⟩ hlt
    exact f m m1 hlt m3

/-- The sub-list marked in the final `out_sel` is the one of the winning mask. -/
theorem selected_cards_result (E : Externals) (hand : List (Option Card))
    (out_sel : List Bool) (combo0 : List (Option Card)) (h1 : 1 ≤ hand.length)
    (hout : hand.length ≤ out_sel.length) :
    selected_cards hand hand.length
        (ai_select_best_hand E hand hand.length out_sel combo0).2 =
      mask_cards hand hand.length (ai_search E hand hand.length combo0).best_mask := by
  rw [ai_select_best_hand_pos E hand hand.length out_sel combo0 h1]
  unfold selected_cards mask_cards
  rw [selected_positions_commit _ _ _ (by omega)]

theorem mask_cards_double (a : Option Card) (l : List (Option Card)) (m : Nat) :
    mask_cards (a :: l) (l.length + 1) (2 * m) = mask_cards l l.length m := by
  unfold mask_cards mask_positions
  rw [List.range_succ_eq_map, List.filter_cons, List.filter_map]
  have h0 : (2 * m).testBit 0 = false := by simp [Nat.testBit_zero]
  have hs : ((fun i => (2 * m).testBit i) ∘ Nat.succ) = fun i => m.testBit i := by
    funext i
    simp [Nat.testBit_succ]
  have hg : ((fun i => (a :: l).getD i none) ∘ Nat.succ) = fun i => l.getD i none := by
    funext i
    simp
  rw [h0, hs]
  simp only [Bool.false_eq_true, if_false, List.map_map, hg]

theorem mask_cards_double_succ (a : Option Card) (l : List (Option Card)) (m : Nat) :
    mask_cards (a :: l) (l.length + 1) (2 * m + 1) = a :: mask_cards l l.length m := by
  unfold mask_cards mask_positions
  rw [List.range_succ_eq_map, List.filter_cons, List.filter_map]
  have h0 : (2 * m + 1).testBit 0 = true := by
    simp [Nat.testBit_zero]
    omega
  have hs : ((fun i => (2 * m + 1).testBit i) ∘ Nat.succ) = fun i => m.testBit i := by
    funext i
    simp only [Function.comp, Nat.testBit_succ]
    congr 1
    omega
  have hg : ((fun i => (a :: l).getD i none) ∘ Nat.succ) = fun i => l.getD i none := by
    funext i
    simp
  rw [h0, hs]
  simp only [if_true, List.map_cons, List.map_map, hg, List.getD_cons_zero]

/-- Every sub-list of the hand (cards kept in their order) is the sub-list of a mask. -/
theorem sublist_mask (hand sub : List (Option Card)) (h : sub.Sublist hand) :
    ∃ m, m < 2 ^ hand.length ∧ mask_cards hand hand.length m = sub := by
  induction h with
  | slnil => exact ⟨0, by norm_num, rfl⟩
  | cons a _ ih =>
    obtain ⟨m, hm, hc⟩ := ih
    refine ⟨2 * m, ?_, ?_⟩
    · rw [List.length_cons, pow_succ]; omega
    · rw [List.length_cons, mask_cards_double, hc]
  | cons₂ a _ ih =>
    obtain ⟨m, hm, hc⟩ := ih
    refine ⟨2 * m + 1, ?_, ?_⟩
    · rw [List.length_cons, pow_succ]; omega
    · rw [List.length_cons, mask_cards_double_succ, hc]

/-- Claim C1: for a hand of 1 to 8 cards, the sub-list marked true in `out_sel` has a
combo score at least that of every non-empty subset of the hand positions with at most
`min(count, MAX_SELECTION_SIZE)` cards: of every admissible mask, and so of every
non-empty sub-list of the hand of at most that length. -/
theorem select_best_optimal (E : Externals) (hand : List (Option Card))
    (out_sel : List Bool) (combo0 : List (Option Card))
    (h1 : 1 ≤ hand.length) (h8 : hand.length ≤ 8) (hout : hand.length ≤ out_sel.length)
    (hcombo : combo0.length = MAX_SELECTION_SIZE) :
    (∀ m, admissible hand.length m →
      mask_score E hand hand.length m ≤
        ai_score_combo E
          (selected_cards hand hand.length
            (ai_select_best_hand E hand hand.length out_sel combo0).2)
          (selected_cards hand hand.length
            (ai_select_best_hand E hand hand.length out_sel combo0).2).length) ∧
    (∀ sub : List (Option Card), sub.Sublist hand → sub ≠ [] →
      sub.length ≤ min hand.length MAX_SELECTION_SIZE →
      ai_score_combo E sub sub.length ≤
        ai_score_combo E
          (selected_cards hand hand.length
            (ai_select_best_hand E hand hand.length out_sel combo0).2)
          (selected_cards hand hand.length
            (ai_select_best_hand E hand hand.length out_sel combo0).2).length) := by
  obtain ⟨a, _, _, _, e, _, _⟩ := ai_search_result E hand hand.length combo0 (by omega) hcombo
  rw [selected_cards_result E hand out_sel combo0 h1 hout]
  have hl : ((mask_cards hand hand.length (ai_search E hand hand.length combo0).best_mask).length
      : Int) = ((popcount hand.length (ai_search E hand hand.length combo0).best_mask : Nat)
        : Int) := by
    simp [mask_cards, popcount]
  rw [hl]
  unfold mask_score at a
  rw [a]
  refine ⟨e, ?_⟩
  intro sub hsub hne hlen
  obtain ⟨m, hm, hc⟩ := sublist_mask hand sub hsub
  have hp : popcount hand.length m = sub.length := by
    rw [← hc]; simp [mask_cards, popcount]
  have hm1 : 1 ≤ m := by
    by_contra h0
    have hz : m = 0 := by omega
    rw [hz] at hc
    simp only [mask_cards, mask_positions_zero, List.map_nil] at hc
    exact hne hc.symm
  have := e m ⟨hm1, hm, by rw [hp]; exact hlen⟩
  unfold mask_score at this
  rw [hc, hp] at this
  exact this

/-- Claim C1, at a concrete hand: in the hand 3♣ 3♦ 9♠ the lone Nine (mask 4) scores no
more than the sub-list that `ai_select_best_hand` marks. -/
theorem select_best_optimal_witness :
    mask_score specExternals pairHand 3 4 ≤
      ai_score_combo specExternals
        (selected_cards pairHand 3
          (ai_select_best_hand specExternals pairHand 3 [true, false, true]
            (List.replicate 5 none)).2)
        (selected_cards pairHand 3
          (ai_select_best_hand specExternals pairHand 3 [true, false, true]
            (List.replicate 5 none)).2).length :=
  (select_best_optimal specExternals pairHand [true, false, true] (List.replicate 5 none)
    (by decide) (by decide) (by decide) (by decide)).1 4 (by decide)

/-- For a hand of 1 to 8 cards and any chip values, the final `out_sel` marks the bits
of the winning mask; when some admissible mask has a positive combo score, the winning
mask is the numerically smallest admissible mask that attains the maximum score (a later
mask with an equal score does not replace it); when every admissible mask scores 0, the
winning mask is 0 and the returned count is 0. -/
theorem first_max_of_pos (E : Externals) (hand : List (Option Card))
    (out_sel : List Bool) (combo0 : List (Option Card))
    (h1 : 1 ≤ hand.length) (h8 : hand.length ≤ 8) (hout : hand.length ≤ out_sel.length)
    (hcombo : combo0.length = MAX_SELECTION_SIZE) :
    marks (ai_select_best_hand E hand hand.length out_sel combo0).2 hand.length
      (ai_search E hand hand.length combo0).best_mask ∧
    ((∃ m, admissible hand.length m ∧ 0 < mask_score E hand hand.length m) →
      is_first_best E hand hand.length (ai_search E hand hand.length combo0).best_mask) ∧
    ((∀ m, admissible hand.length m → mask_score E hand hand.length m = 0) →
      (ai_search E hand hand.length combo0).best_mask = 0 ∧
      (ai_select_best_hand E hand hand.length out_sel combo0).1 = 0) := by
  obtain ⟨a, b, c, d, e, f, g⟩ :=
    ai_search_result E hand hand.length combo0 (by omega) hcombo
  rw [ai_select_best_hand_pos E hand hand.length out_sel combo0 h1]
  refine ⟨?_, ?_, ?_⟩
  · intro i hi
    rw [commit_clear_getD, if_pos ⟨hi, by omega⟩]
  · rintro ⟨m, hm, hpos⟩
    have hbest : 0 < (ai_search E hand hand.length combo0).best_score :=
      lt_of_lt_of_le hpos (e m hm)
    obtain ⟨hadm, hfirst⟩ := g hbest
    refine ⟨hadm, fun m' hm' => by rw [a]; exact e m' hm', ?_⟩
    intro m' hm' heq
    by_contra hlt
    have := hfirst m' hm' (by omega)
    rw [a] at heq
    omega
  · intro hall
    have hs : (ai_search E hand hand.length combo0).best_score = 0 := by
      by_contra hne
      obtain ⟨hadm, _⟩ := g (by omega)
      have := hall _ hadm
      rw [a] at this
      exact hne this
    have hm0 := f hs
    refine ⟨hm0, ?_⟩
    simp only
    rw [b, hm0]
    simp [popcount, mask_positions_zero]

/-- Claim C3: for a hand of 0 to 8 cards the count returned by `ai_select_best_hand` is
at most `min(count, MAX_SELECTION_SIZE)` (and not negative). -/
theorem select_best_cap (E : Externals) (hand : List (Option Card))
    (out_sel : List Bool) (combo0 : List (Option Card)) (h8 : hand.length ≤ 8)
    (hcombo : combo0.length = MAX_SELECTION_SIZE) :
    0 ≤ (ai_select_best_hand E hand hand.length out_sel combo0).1 ∧
    (ai_select_best_hand E hand hand.length out_sel combo0).1 ≤
      ((min hand.length MAX_SELECTION_SIZE : Nat) : Int) := by
  by_cases h0 : hand.length = 0
  · simp [ai_select_best_hand, h0]
  · obtain ⟨_, b, _, d, _⟩ := ai_search_result E hand hand.length combo0 (by omega) hcombo
    rw [ai_select_best_hand_pos E hand hand.length out_sel combo0 (by omega)]
    simp only
    rw [b]
    exact ⟨Int.natCast_nonneg _, Int.ofNat_le.2 d⟩

/-- Claim C3, at the hand of the scenario: for eight cards of one rank the returned
count is at most 5. -/
theorem select_best_cap_witness :
    (ai_select_best_hand specExternals eightFives 8 (List.replicate 8 false)
      (List.replicate 5 none)).1 ≤ 5 :=
  (select_best_cap specExternals eightFives (List.replicate 8 false) (List.replicate 5 none)
    (by decide) (by decide)).2

theorem chips_fold (E : Externals) (l : List (Option Card)) : ∀ c, c < 2 ^ 32 →
    l.foldl (add_card_value E) c =
      (c + ((l.filterMap id).map E.card_get_value).sum) % 2 ^ 32 := by
  induction l with
  | nil =>
    intro c hc
    simp only [List.foldl_nil, List.filterMap_nil, List.map_nil, List.sum_nil, Nat.add_zero]
    exact (Nat.mod_eq_of_lt hc).symm
  | cons h l ih =>
    intro c hc
    cases h with
    | none =>
      simp only [List.foldl_cons, add_card_value, List.filterMap_cons, id]
      exact ih c hc
    | some cd =>
      simp only [List.foldl_cons, add_card_value, List.filterMap_cons, id, List.map_cons,
        List.sum_cons]
      rw [ih _ (Nat.mod_lt _ (by norm_num)), Nat.mod_add_mod, Nat.add_assoc]

theorem ai_hand_base_bounds (h : Nat) (h1 : 1 ≤ h) (h13 : h ≤ 13) :
    5 ≤ (ai_hand_base.getD h ⟨0, 0⟩).chips ∧ (ai_hand_base.getD h ⟨0, 0⟩).chips ≤ 160 ∧
    1 ≤ (ai_hand_base.getD h ⟨0, 0⟩).mult ∧ (ai_hand_base.getD h ⟨0, 0⟩).mult ≤ 16 := by
  interval_cases h <;> simp [ai_hand_base]

/-- The score of a non-empty sub-list: the guarded product of its chips, reduced modulo
`2 ^ 32`, and the base mult of its hand type. -/
theorem ai_score_combo_eq (E : Externals) (cards : List (Option Card)) (count : Int)
    (h : 0 < count) :
    ai_score_combo E cards count =
      protected_mult (chip_total E cards count % 2 ^ 32)
        (ai_hand_base.getD (ai_compute_hand_type E cards count) ⟨0, 0⟩).mult := by
  obtain ⟨r1, r13⟩ := ai_compute_hand_type_range E cards count h
  obtain ⟨_, c160, _, _⟩ := ai_hand_base_bounds _ r1 r13
  unfold ai_score_combo chip_total
  simp only
  rw [if_neg (by simp only [NONE]; omega), chips_fold E _ _ (by omega)]

theorem protected_mult_pos (c m : Nat) (hc : 0 < c) (hm : 0 < m) : 0 < protected_mult c m := by
  unfold protected_mult
  rw [if_neg (by omega)]
  by_cases h : c > 0xFFFFFFFF / m
  · rw [if_pos h]; norm_num
  · rw [if_neg h]
    have hle : c * m ≤ 0xFFFFFFFF := (Nat.le_div_iff_mul_le hm).1 (by omega)
    rw [Nat.mod_eq_of_lt (by omega)]
    exact Nat.mul_pos hc hm

/-- A non-empty sub-list whose chips do not exceed 32 bits has a positive score. -/
theorem ai_score_combo_pos (E : Externals) (cards : List (Option Card)) (count : Int)
    (h : 0 < count) (hs : chip_total E cards count < 2 ^ 32) :
    0 < ai_score_combo E cards count := by
  rw [ai_score_combo_eq E cards count h, Nat.mod_eq_of_lt hs]
  obtain ⟨r1, r13⟩ := ai_compute_hand_type_range E cards count h
  obtain ⟨c5, _, m1, _⟩ := ai_hand_base_bounds _ r1 r13
  apply protected_mult_pos
  · unfold chip_total; omega
  · omega

theorem mask_positions_one (n : Nat) (h : 1 ≤ n) : mask_positions n 1 = [0] := by
  obtain ⟨k, rfl⟩ := Nat.exists_eq_add_of_le h
  rw [Nat.add_comm]
  simp [mask_positions, List.range_succ_eq_map, List.filter_map, Nat.testBit_succ]

theorem admissible_one (n : Nat) (h : 1 ≤ n) : admissible n 1 := by
  refine ⟨le_refl _, Nat.one_lt_two_pow (by omega), ?_⟩
  simp only [popcount, mask_positions_one n h, List.length_singleton, MAX_SELECTION_SIZE]
  omega

/-- Claim C4: for a hand of 1 to 8 cards in which no candidate's chip sum exceeds 32
bits, `ai_select_best_hand` returns a count of at least 1 and marks at least one
position true. -/
theorem select_best_nonempty (E : Externals) (hand : List (Option Card))
    (out_sel : List Bool) (combo0 : List (Option Card))
    (h1 : 1 ≤ hand.length) (h8 : hand.length ≤ 8) (hout : hand.length ≤ out_sel.length)
    (hcombo : combo0.length = MAX_SELECTION_SIZE)
    (hsmall : ∀ m, admissible hand.length m →
      chip_total E (mask_cards hand hand.length m) (popcount hand.length m) < 2 ^ 32) :
    1 ≤ (ai_select_best_hand E hand hand.length out_sel combo0).1 ∧
    ∃ i, i < hand.length ∧
      (ai_select_best_hand E hand hand.length out_sel combo0).2.getD i false = true := by
  obtain ⟨_, b, _, _, e, _, g⟩ := ai_search_result E hand hand.length combo0 (by omega) hcombo
  have hadm := admissible_one hand.length h1
  have hp1 : popcount hand.length 1 = 1 := by
    simp [popcount, mask_positions_one hand.length h1]
  have hpos : 0 < mask_score E hand hand.length 1 := by
    unfold mask_score
    apply ai_score_combo_pos
    · rw [hp1]; norm_num
    · exact hsmall 1 hadm
  obtain ⟨⟨w1, w2, _⟩, _⟩ := g (lt_of_lt_of_le hpos (e 1 hadm))
  rw [ai_select_best_hand_pos E hand hand.length out_sel combo0 h1]
  constructor
  · simp only
    rw [b]
    exact Int.ofNat_le.2 (popcount_pos _ _ w1 w2)
  · obtain ⟨i, hi, hb⟩ := exists_bit_lt _ _ w1 w2
    refine ⟨i, hi, ?_⟩
    simp only
    rw [commit_clear_getD, if_pos ⟨hi, by omega⟩]
    exact hb

/-- Claim C4, at a concrete hand: for 3♣ 3♦ 9♠ with the chip values of the game, at least
one card is selected and position 0 is marked. -/
theorem select_best_nonempty_witness :
    1 ≤ (ai_select_best_hand specExternals pairHand 3 [false, false, false]
      (List.replicate 5 none)).1 ∧
    (ai_select_best_hand specExternals pairHand 3 [false, false, false]
      (List.replicate 5 none)).2.getD 0 false = true :=
  ⟨(select_best_nonempty specExternals pairHand [false, false, false] (List.replicate 5 none)
      (by decide) (by decide) (by decide) (by decide)
      (fun m hm => by
        have hlt : m < 8 := hm.2.1
        interval_cases m <;> decide)).1,
   by decide⟩

/-- Claim C5: for every `count <= 0`, `ai_select_best_hand` returns 0 and leaves the
buffer as the caller passed it, whatever the hand: a buffer the caller zeroed is an
all-false mask, and no search is made. -/
theorem select_best_empty (E : Externals) (hand : List (Option Card)) (count : Int)
    (out_sel : List Bool) (combo0 : List (Option Card)) (h : count ≤ 0) :
    ai_select_best_hand E hand count out_sel combo0 = (0, out_sel) ∧
    ((∀ b, b ∈ out_sel → b = false) →
      ∀ b, b ∈ (ai_select_best_hand E hand count out_sel combo0).2 → b = false) := by
  have hres : ai_select_best_hand E hand count out_sel combo0 = (0, out_sel) := by
    unfold ai_select_best_hand
    rw [if_pos h]
  rw [hres]
  exact ⟨rfl, fun hz => hz⟩

/-- Claim C5, at a concrete call: with `count = -1` the zeroed buffer comes back
unchanged and the count is 0. -/
theorem select_best_empty_witness :
    ai_select_best_hand specExternals pairHand (-1) [false, false, false]
      (List.replicate 5 none) = (0, [false, false, false]) :=
  (select_best_empty specExternals pairHand (-1) [false, false, false]
    (List.replicate 5 none) (by decide)).1

/-- Claim C6: for a hand of 1 to 8 cards and any initial content of `out_sel`, after
`ai_select_best_hand` every position below `count` holds the corresponding bit of the
winning mask, the number of true entries among them is the returned count, and the
entries from `count` on are untouched. -/
theorem select_best_mask_count (E : Externals) (hand : List (Option Card))
    (out_sel : List Bool) (combo0 : List (Option Card))
    (h1 : 1 ≤ hand.length) (h8 : hand.length ≤ 8) (hout : hand.length ≤ out_sel.length)
    (hcombo : combo0.length = MAX_SELECTION_SIZE) :
    (∀ i, i < hand.length →
      (ai_select_best_hand E hand hand.length out_sel combo0).2.getD i false =
        (ai_search E hand hand.length combo0).best_mask.testBit i) ∧
    ((((ai_select_best_hand E hand hand.length out_sel combo0).2.take hand.length).count true
      : Nat) : Int) = (ai_select_best_hand E hand hand.length out_sel combo0).1 ∧
    (ai_select_best_hand E hand hand.length out_sel combo0).2.length = out_sel.length ∧
    (∀ i, hand.length ≤ i →
      (ai_select_best_hand E hand hand.length out_sel combo0).2.getD i false =
        out_sel.getD i false) := by
  obtain ⟨_, b, _⟩ := ai_search_result E hand hand.length combo0 (by omega) hcombo
  rw [ai_select_best_hand_pos E hand hand.length out_sel combo0 h1]
  refine ⟨?_, ?_, commit_clear_length _ _ _, ?_⟩
  · intro i hi
    rw [commit_clear_getD, if_pos ⟨hi, by omega⟩]
  · simp only
    rw [count_true_take, b]
    have := selected_positions_commit hand.length
      (ai_search E hand hand.length combo0).best_mask out_sel hout
    unfold selected_positions at this
    rw [this]
    rfl
  · intro i hi
    rw [commit_clear_getD, if_neg (by omega)]

/-- Claim C6, at a concrete hand and a buffer that is not zeroed: for 3♣ 3♦ 9♠ all three
entries are overwritten and the three true entries match the returned count 3. -/
theorem select_best_mask_count_witness :
    ai_select_best_hand specExternals pairHand 3 [true, false, true]
      (List.replicate 5 none) = (3, [true, true, true]) ∧
    ((((ai_select_best_hand specExternals pairHand 3 [true, false, true]
      (List.replicate 5 none)).2.take 3).count true : Nat) : Int) =
    (ai_select_best_hand specExternals pairHand 3 [true, false, true]
      (List.replicate 5 none)).1 :=
  ⟨by decide,
   (select_best_mask_count specExternals pairHand [true, false, true] (List.replicate 5 none)
      (by decide) (by decide) (by decide) (by decide)).2.1⟩

/-! ## The score formula and the table `ai_hand_base` -/

theorem protected_mult_eq_min (c m : Nat) (hm : m < 2 ^ 32) :
    protected_mult c m = min (c * m) (2 ^ 32 - 1) := by
  unfold protected_mult
  by_cases hc0 : c = 0
  · simp [hc0]
  by_cases hm0 : m = 0
  · simp [hm0]
  rw [if_neg (by omega)]
  have hk : c > 0xFFFFFFFF / m ↔ 0xFFFFFFFF < c * m :=
    Nat.div_lt_iff_lt_mul (Nat.pos_of_ne_zero hm0)
  by_cases h : c > 0xFFFFFFFF / m
  · rw [if_pos h]
    have := hk.1 h
    omega
  · rw [if_neg h]
    have hle : ¬ 0xFFFFFFFF < c * m := fun h2 => h (hk.2 h2)
    rw [Nat.mod_eq_of_lt (by omega)]
    omega

theorem protected_mult_exact (c m : Nat) (h : c * m < 2 ^ 32) : protected_mult c m = c * m := by
  unfold protected_mult
  by_cases hc0 : c = 0
  · simp [hc0]
  by_cases hm0 : m = 0
  · simp [hm0]
  rw [if_neg (by omega)]
  have hk : c > 0xFFFFFFFF / m ↔ 0xFFFFFFFF < c * m :=
    Nat.div_lt_iff_lt_mul (Nat.pos_of_ne_zero hm0)
  rw [if_neg (fun h2 => by have := hk.1 h2; omega), Nat.mod_eq_of_lt h]

/-- Claim C11: `ai_score_combo` returns 0 when the classifier returns `NONE`; otherwise
it returns the saturating product (the minimum of the product and `2 ^ 32 - 1`) of the
base chips of the hand type plus the chip values of all the non-null cards of the
sub-list, added modulo `2 ^ 32`, and the base mult of the hand type. Every card counts,
scoring or not: in 3♣ 3♦ 9♠, a pair, the Nine adds its 9 chips. -/
theorem ai_score_combo_formula (E : Externals) (cards : List (Option Card)) (count : Int) :
    (ai_compute_hand_type E cards count = NONE → ai_score_combo E cards count = 0) ∧
    (ai_compute_hand_type E cards count ≠ NONE →
      ai_score_combo E cards count =
        min
          ((((ai_hand_base.getD (ai_compute_hand_type E cards count) ⟨0, 0⟩).chips +
              (((cards.take count.toNat).filterMap id).map E.card_get_value).sum) % 2 ^ 32) *
            (ai_hand_base.getD (ai_compute_hand_type E cards count) ⟨0, 0⟩).mult)
          (2 ^ 32 - 1)) ∧
    (ai_compute_hand_type specExternals pairHand 3 = PAIR ∧
      ai_score_combo specExternals pairHand 3 = (10 + (3 + 3 + 9)) * 2) := by
  refine ⟨?_, ?_, by decide, by decide⟩
  · intro h
    unfold ai_score_combo
    simp [h]
  · intro h
    have hpos : 0 < count := by
      by_contra hc
      exact h (by simp [ai_compute_hand_type, not_lt.1 hc])
    obtain ⟨r1, r13⟩ := ai_compute_hand_type_range E cards count hpos
    obtain ⟨_, _, _, m16⟩ := ai_hand_base_bounds _ r1 r13
    rw [ai_score_combo_eq E cards count hpos,
      protected_mult_eq_min _ _ (by omega)]
    rfl

/-- Claim C12: in `ai_hand_base`, for hand types `a` ranked strictly above `b` (both
among the 14 of the enumeration), the base chips and the base mult of `a` are at least
those of `b`. -/
theorem ai_hand_base_monotone (a b : Nat) (hab : b < a) (ha : a ≤ FLUSH_FIVE) :
    (ai_hand_base.getD b ⟨0, 0⟩).chips ≤ (ai_hand_base.getD a ⟨0, 0⟩).chips ∧
    (ai_hand_base.getD b ⟨0, 0⟩).mult ≤ (ai_hand_base.getD a ⟨0, 0⟩).mult := by
  simp only [FLUSH_FIVE] at ha
  interval_cases a <;> interval_cases b <;> decide

/-- Claim C12, at two hand types: `FLUSH` against `STRAIGHT`, 35 ≥ 30 chips and 4 ≥ 4
mult. -/
theorem ai_hand_base_monotone_witness :
    (ai_hand_base.getD STRAIGHT ⟨0, 0⟩).chips ≤ (ai_hand_base.getD FLUSH ⟨0, 0⟩).chips ∧
    (ai_hand_base.getD STRAIGHT ⟨0, 0⟩).mult ≤ (ai_hand_base.getD FLUSH ⟨0, 0⟩).mult :=
  ai_hand_base_monotone FLUSH STRAIGHT (by decide) (by decide)

/-- Claim C13 as stated fails: `ROYAL_FLUSH` is ranked strictly above `STRAIGHT_FLUSH`,
and neither its base chips (100) nor its base mult (8) is greater. -/
theorem ai_hand_base_strict_counterexample :
    STRAIGHT_FLUSH < ROYAL_FLUSH ∧ ROYAL_FLUSH ≤ FLUSH_FIVE ∧
    ¬ ((ai_hand_base.getD STRAIGHT_FLUSH ⟨0, 0⟩).chips <
        (ai_hand_base.getD ROYAL_FLUSH ⟨0, 0⟩).chips) ∧
    ¬ ((ai_hand_base.getD STRAIGHT_FLUSH ⟨0, 0⟩).mult <
        (ai_hand_base.getD ROYAL_FLUSH ⟨0, 0⟩).mult) := by
  decide

/-- Claim C13, amended: for hand types `a` ranked strictly above `b`, the base chips of
`a` are greater than those of `b` except for the ties `THREE_OF_A_KIND`/`STRAIGHT` (30)
and `STRAIGHT_FLUSH`/`ROYAL_FLUSH` (100), and the base mult of `a` is greater than that
of `b` except for the ties `PAIR`/`TWO_PAIR` (2), `STRAIGHT`/`FLUSH`/`FULL_HOUSE` (4) and
`STRAIGHT_FLUSH`/`ROYAL_FLUSH` (8), where they are equal. -/
theorem ai_hand_base_strict_except_ties (a b : Nat) (hab : b < a) (ha : a ≤ FLUSH_FIVE) :
    ((ai_hand_base.getD b ⟨0, 0⟩).chips < (ai_hand_base.getD a ⟨0, 0⟩).chips ∨
      ((ai_hand_base.getD b ⟨0, 0⟩).chips = (ai_hand_base.getD a ⟨0, 0⟩).chips ∧
        ((b = THREE_OF_A_KIND ∧ a = STRAIGHT) ∨ (b = STRAIGHT_FLUSH ∧ a = ROYAL_FLUSH)))) ∧
    ((ai_hand_base.getD b ⟨0, 0⟩).mult < (ai_hand_base.getD a ⟨0, 0⟩).mult ∨
      ((ai_hand_base.getD b ⟨0, 0⟩).mult = (ai_hand_base.getD a ⟨0, 0⟩).mult ∧
        ((b = PAIR ∧ a = TWO_PAIR) ∨ (b = STRAIGHT ∧ a = FLUSH) ∨
          (b = STRAIGHT ∧ a = FULL_HOUSE) ∨ (b = FLUSH ∧ a = FULL_HOUSE) ∨
          (b = STRAIGHT_FLUSH ∧ a = ROYAL_FLUSH)))) := by
  simp only [FLUSH_FIVE] at ha
  interval_cases a <;> interval_cases b <;> decide

/-- Claim C13, amended, at two hand types: `FULL_HOUSE` against `FLUSH`, the chips grow
(35 to 40) and the mult is tied at 4. -/
theorem ai_hand_base_strict_except_ties_witness :
    (ai_hand_base.getD FLUSH ⟨0, 0⟩).chips < (ai_hand_base.getD FULL_HOUSE ⟨0, 0⟩).chips ∧
    (ai_hand_base.getD FLUSH ⟨0, 0⟩).mult = (ai_hand_base.getD FULL_HOUSE ⟨0, 0⟩).mult :=
  ⟨((ai_hand_base_strict_except_ties FULL_HOUSE FLUSH (by decide) (by decide)).1).resolve_right
      (by decide),
   by decide⟩

/-- Claim C14: `ai_hand_base` has 14 entries, one per hand type from `NONE` to
`FLUSH_FIVE`, with the (chips, mult) pairs the specification lists. -/
theorem ai_hand_base_entries :
    ai_hand_base.length = 14 ∧ FLUSH_FIVE + 1 = ai_hand_base.length ∧
    ai_hand_base[NONE]? = some ⟨0, 0⟩ ∧
    ai_hand_base[PAIR]? = some ⟨10, 2⟩ ∧
    ai_hand_base[FLUSH]? = some ⟨35, 4⟩ ∧
    ai_hand_base[FULL_HOUSE]? = some ⟨40, 4⟩ ∧
    ai_hand_base[FOUR_OF_A_KIND]? = some ⟨60, 7⟩ ∧
    ai_hand_base[STRAIGHT_FLUSH]? = some ⟨100, 8⟩ ∧
    ai_hand_base[ROYAL_FLUSH]? = some ⟨100, 8⟩ ∧
    ai_hand_base[FIVE_OF_A_KIND]? = some ⟨120, 12⟩ ∧
    ai_hand_base[FLUSH_HOUSE]? = some ⟨140, 14⟩ ∧
    ai_hand_base[FLUSH_FIVE]? = some ⟨160, 16⟩ := by
  decide

/-! ## The frequency tables -/

theorem foldl_scan_tally (l : List (Option Card)) : ∀ (t : FreqTables),
    (l.foldl scan_card t).ranks = tally Card.rank t.ranks l ∧
    (l.foldl scan_card t).suits = tally Card.suit t.suits l := by
  induction l with
  | nil => intro t; exact ⟨rfl, rfl⟩
  | cons h l ih =>
    intro t
    cases h with
    | none => exact ih t
    | some c => exact ih _

theorem foldl_scan_filter (l : List (Option Card)) : ∀ (t : FreqTables),
    (l.filter Option.isSome).foldl scan_card t = l.foldl scan_card t := by
  induction l with
  | nil => intro t; rfl
  | cons h l ih =>
    intro t
    cases h with
    | none => simpa [scan_card] using ih t
    | some c => simpa using ih _

theorem foldl_add_filter (E : Externals) (l : List (Option Card)) : ∀ (c : Nat),
    (l.filter Option.isSome).foldl (add_card_value E) c = l.foldl (add_card_value E) c := by
  induction l with
  | nil => intro c; rfl
  | cons h l ih =>
    intro c
    cases h with
    | none => simpa [add_card_value] using ih c
    | some cd => simpa using ih _

/-- The tables built from the first `count` handles are those built from the same
handles with the null ones removed. -/
theorem scan_cards_live (cards : List (Option Card)) (count : Nat) :
    scan_cards (live_handles cards count) (live_handles cards count).length =
      scan_cards cards count := by
  unfold scan_cards live_handles
  rw [List.take_length, foldl_scan_filter]

/-- Claim C19: null handles are skipped: the rank and suit tables built by
`ai_compute_hand_type` from the first `count` handles are those built from the same
handles with the null ones removed; when a non-null handle remains, the hand type and
the score of `ai_score_combo` are those of the list without its null handles; a null
handle adds no chips. -/
theorem null_handles_skipped (E : Externals) (cards : List (Option Card)) (count : Nat) :
    scan_cards cards count =
      scan_cards (live_handles cards count) (live_handles cards count).length ∧
    (live_handles cards count ≠ [] →
      ai_compute_hand_type E cards count =
        ai_compute_hand_type E (live_handles cards count) (live_handles cards count).length) ∧
    (live_handles cards count ≠ [] →
      ai_score_combo E cards count =
        ai_score_combo E (live_handles cards count) (live_handles cards count).length) ∧
    (∀ c, (cards.take count).foldl (add_card_value E) c =
      (live_handles cards count).foldl (add_card_value E) c) ∧
    (∀ c, add_card_value E c none = c) ∧
    (∀ t, scan_card t none = t) := by
  have hchips : ∀ c, (cards.take count).foldl (add_card_value E) c =
      (live_handles cards count).foldl (add_card_value E) c := by
    intro c
    unfold live_handles
    rw [foldl_add_filter]
  have htype : live_handles cards count ≠ [] →
      ai_compute_hand_type E cards count =
        ai_compute_hand_type E (live_handles cards count)
          (live_handles cards count).length := by
    intro hne
    have hlen : 0 < (live_handles cards count).length := List.length_pos.2 hne
    have hcount : 0 < count := by
      by_contra h0
      have : count = 0 := by omega
      subst this
      simp [live_handles] at hne
    rw [ai_compute_hand_type_pos E cards count (by omega),
      ai_compute_hand_type_pos E _ _ (by omega)]
    simp only [Int.toNat_ofNat]
    rw [scan_cards_live]
  refine ⟨(scan_cards_live cards count).symm, htype, ?_, hchips, fun _ => rfl, fun _ => rfl⟩
  intro hne
  unfold ai_score_combo
  simp only [Int.toNat_ofNat]
  rw [← htype hne, hchips, List.take_length]

theorem getD_le_sum : ∀ (t : List Nat) (i : Nat), t.getD i 0 ≤ t.sum := by
  intro t
  induction t with
  | nil => intro i; simp
  | cons a t ih =>
    intro i
    cases i with
    | zero => simp
    | succ i =>
      simp only [List.getD_cons_succ, List.sum_cons]
      exact le_trans (ih i) (Nat.le_add_left _ _)

theorem sum_set : ∀ (t : List Nat) (i v : Nat), i < t.length →
    (t.set i v).sum + t.getD i 0 = t.sum + v := by
  intro t
  induction t with
  | nil => intro i v h; simp at h
  | cons a t ih =>
    intro i v h
    cases i with
    | zero => simp; omega
    | succ i =>
      simp only [List.set_cons_succ, List.sum_cons, List.getD_cons_succ]
      have := ih i v (by simpa using h)
      omega

theorem getD_set (t : List Nat) (i v r : Nat) :
    (t.set i v).getD r 0 = if i = r ∧ i < t.length then v else t.getD r 0 := by
  rw [List.getD_eq_getElem?_getD, List.getElem?_set, List.getD_eq_getElem?_getD]
  by_cases h : i = r
  · subst h
    by_cases hl : i < t.length
    · simp [hl]
    · simp [hl, List.getElem?_eq_none (not_lt.1 hl)]
  · simp [h]

/-- One increment of a counter that is not at 255: the length is kept, the sum grows by
one, the slot grows by one and no other slot changes. -/
theorem u8_incr_spec (t : List Nat) (i : Nat) (hi : i < t.length) (hs : t.sum ≤ 254) :
    (u8_incr t i).length = t.length ∧ (u8_incr t i).sum = t.sum + 1 ∧
    ∀ r, (u8_incr t i).getD r 0 = t.getD r 0 + (if i = r then 1 else 0) := by
  have hle := getD_le_sum t i
  have hmod : (t.getD i 0 + 1) % 256 = t.getD i 0 + 1 := Nat.mod_eq_of_lt (by omega)
  unfold u8_incr
  rw [hmod]
  refine ⟨List.length_set _ _ _, ?_, ?_⟩
  · have := sum_set t i (t.getD i 0 + 1) hi
    omega
  · intro r
    rw [getD_set]
    by_cases h : i = r
    · subst h; simp [hi]
    · simp [h]

/-- The counters after a scan that cannot wrap: the sum of the slots has grown by the
number of non-null handles and every slot by the number of cards it stands for. -/
theorem tally_spec (key : Card → Nat) (l : List (Option Card)) : ∀ (t : List Nat),
    t.sum + (l.filterMap id).length ≤ 255 →
    (∀ c, some c ∈ l → key c < t.length) →
    (tally key t l).length = t.length ∧
    (tally key t l).sum = t.sum + (l.filterMap id).length ∧
    ∀ r, (tally key t l).getD r 0 =
      t.getD r 0 + (l.filterMap id).countP (fun c => key c = r) := by
  induction l with
  | nil =>
    intro t _ _
    simp [tally]
  | cons h l ih =>
    intro t hsum hkey
    cases h with
    | none =>
      have := ih t (by simpa using hsum) (fun c hc => hkey c (List.mem_cons_of_mem _ hc))
      simpa [tally] using this
    | some c =>
      simp only [List.filterMap_cons, id, List.length_cons] at hsum
      obtain ⟨a1, a2, a3⟩ := u8_incr_spec t (key c) (hkey c (List.mem_cons_self _ _))
        (by omega)
      obtain ⟨b1, b2, b3⟩ := ih (u8_incr t (key c)) (by rw [a2]; omega)
        (fun c2 hc2 => by rw [a1]; exact hkey c2 (List.mem_cons_of_mem _ hc2))
      have hstep : tally key t (some c :: l) = tally key (u8_incr t (key c)) l := rfl
      rw [hstep]
      refine ⟨by rw [b1, a1], ?_, ?_⟩
      · rw [b2, a2]
        simp only [List.filterMap_cons, id, List.length_cons]
        omega
      · intro r
        rw [b3, a3]
        simp only [List.filterMap_cons, id, List.countP_cons]
        by_cases hr : key c = r
        · simp [hr]; omega
        · simp [hr]

theorem replicate_getD_zero (n r : Nat) : (List.replicate n 0).getD r 0 = 0 := by
  rw [List.getD_eq_getElem?_getD, List.getElem?_replicate]
  split <;> rfl

/-- The two tables after a scan that cannot wrap, of handles with ranks below 13 and
suits below 4: their lengths and the exact content of every slot. -/
theorem scan_cards_exact (cards : List (Option Card)) (count : Nat) (h8 : count ≤ 8)
    (hr : ∀ c, some c ∈ cards.take count → c.rank < NUM_RANKS ∧ c.suit < NUM_SUITS) :
    (scan_cards cards count).ranks.length = NUM_RANKS ∧
    (scan_cards cards count).suits.length = NUM_SUITS ∧
    (∀ r, (scan_cards cards count).ranks.getD r 0 =
      ((cards.take count).filterMap id).countP (fun c => c.rank = r)) ∧
    (∀ s, (scan_cards cards count).suits.getD s 0 =
      ((cards.take count).filterMap id).countP (fun c => c.suit = s)) := by
  have hlen : ((cards.take count).filterMap id).length ≤ 8 :=
    le_trans (List.length_filterMap_le _ _) (le_trans (List.length_take_le _ _) h8)
  obtain ⟨e1, e2⟩ := foldl_scan_tally (cards.take count)
    ⟨List.replicate NUM_RANKS 0, List.replicate NUM_SUITS 0⟩
  obtain ⟨r1, _, r3⟩ := tally_spec Card.rank (cards.take count) (List.replicate NUM_RANKS 0)
    (by simp; omega) (fun c hc => by simpa using (hr c hc).1)
  obtain ⟨s1, _, s3⟩ := tally_spec Card.suit (cards.take count) (List.replicate NUM_SUITS 0)
    (by simp; omega) (fun c hc => by simpa using (hr c hc).2)
  unfold scan_cards
  rw [e1, e2]
  simp only [List.length_replicate] at r1 s1
  refine ⟨r1, s1, ?_, ?_⟩
  · intro r; rw [r3, replicate_getD_zero, Nat.zero_add]
  · intro s; rw [s3, replicate_getD_zero, Nat.zero_add]

/-- Claim C20: for a list of at most 8 handles whose cards have a rank below 13 and a
suit below 4, after the scan of `ai_compute_hand_type` the 13 rank slots and the 4 suit
slots each sum to the number of non-null handles among the `count` positions, and no
counter has wrapped: every slot holds the exact number of cards of its rank or suit. -/
theorem scan_cards_sums (cards : List (Option Card)) (count : Nat) (h8 : count ≤ 8)
    (hr : ∀ c, some c ∈ cards.take count → c.rank < NUM_RANKS ∧ c.suit < NUM_SUITS) :
    (scan_cards cards count).ranks.length = NUM_RANKS ∧
    (scan_cards cards count).suits.length = NUM_SUITS ∧
    (scan_cards cards count).ranks.sum = ((cards.take count).filterMap id).length ∧
    (scan_cards cards count).suits.sum = ((cards.take count).filterMap id).length ∧
    (∀ r, (scan_cards cards count).ranks.getD r 0 =
      ((cards.take count).filterMap id).countP (fun c => c.rank = r)) ∧
    (∀ s, (scan_cards cards count).suits.getD s 0 =
      ((cards.take count).filterMap id).countP (fun c => c.suit = s)) ∧
    (∀ x, x ∈ (scan_cards cards count).ranks → x ≤ 8) ∧
    (∀ x, x ∈ (scan_cards cards count).suits → x ≤ 8) := by
  have hlen : ((cards.take count).filterMap id).length ≤ 8 :=
    le_trans (List.length_filterMap_le _ _) (le_trans (List.length_take_le _ _) h8)
  obtain ⟨e1, e2⟩ := foldl_scan_tally (cards.take count)
    ⟨List.replicate NUM_RANKS 0, List.replicate NUM_SUITS 0⟩
  obtain ⟨r1, r2, r3⟩ := tally_spec Card.rank (cards.take count) (List.replicate NUM_RANKS 0)
    (by simp; omega) (fun c hc => by simpa using (hr c hc).1)
  obtain ⟨s1, s2, s3⟩ := tally_spec Card.suit (cards.take count) (List.replicate NUM_SUITS 0)
    (by simp; omega) (fun c hc => by simpa using (hr c hc).2)
  unfold scan_cards
  rw [e1, e2]
  simp only [List.sum_replicate, smul_eq_mul, Nat.mul_zero, Nat.zero_add,
    List.length_replicate] at r1 r2 s1 s2
  have hz : ∀ (n r : Nat), (List.replicate n 0).getD r 0 = 0 := by
    intro n r
    rw [List.getD_eq_getElem?_getD, List.getElem?_replicate]
    split <;> rfl
  refine ⟨r1, s1, r2, s2, ?_, ?_, ?_, ?_⟩
  · intro r; rw [r3, hz, Nat.zero_add]
  · intro s; rw [s3, hz, Nat.zero_add]
  · intro x hx
    obtain ⟨i, hi, rfl⟩ := List.getElem_of_mem hx
    have := getD_le_sum (tally Card.rank (List.replicate NUM_RANKS 0) (cards.take count)) i
    rw [List.getD_eq_getElem _ _ hi] at this
    omega
  · intro x hx
    obtain ⟨i, hi, rfl⟩ := List.getElem_of_mem hx
    have := getD_le_sum (tally Card.suit (List.replicate NUM_SUITS 0) (cards.take count)) i
    rw [List.getD_eq_getElem _ _ hi] at this
    omega

/-- Claim C20, at a concrete hand: in 3♣ 3♦ 9♠ the rank slots sum to 3 and the slot of
the Threes holds 2. -/
theorem scan_cards_sums_witness :
    (scan_cards pairHand 3).ranks.sum = 3 ∧ (scan_cards pairHand 3).ranks.getD 1 0 = 2 ∧
    (scan_cards pairHand 3).suits.sum = ((pairHand.take 3).filterMap id).length :=
  ⟨by decide, by decide,
   (scan_cards_sums pairHand 3 (by decide) (fun c hc => by
      simp only [pairHand, List.take, List.mem_cons, Option.some.injEq, List.mem_nil_iff,
        or_false] at hc
      rcases hc with rfl | rfl | rfl <;> decide)).2.2.2.1⟩

/-! ## Hands whose best subset is known -/

theorem map_getD_range (hand : List (Option Card)) :
    (List.range hand.length).map (fun i => hand.getD i none) = hand := by
  apply List.ext_getElem
  · simp
  · intro i h1 h2
    rw [List.getElem_map, List.getElem_range, List.getD_eq_getElem _ _ h2]

/-- The sub-list of a mask is a sub-list of the hand. -/
theorem mask_cards_sublist (hand : List (Option Card)) (m : Nat) :
    (mask_cards hand hand.length m).Sublist hand := by
  have h := List.Sublist.map (fun i => hand.getD i none)
    (List.filter_sublist (p := fun i => m.testBit i) (List.range hand.length))
  rw [map_getD_range] at h
  exact h

theorem mask_cards_length (hand : List (Option Card)) (n m : Nat) :
    (mask_cards hand n m).length = popcount n m := by
  simp [mask_cards, popcount]

/-- The chips of the sub-list of a mask: the base chips of its hand type plus chip
values that together are at most those of the whole hand. -/
theorem chip_total_mask_le (E : Externals) (hand : List (Option Card)) (m : Nat) :
    chip_total E (mask_cards hand hand.length m) (popcount hand.length m) ≤
      (ai_hand_base.getD (ai_compute_hand_type E (mask_cards hand hand.length m)
        (popcount hand.length m)) ⟨0, 0⟩).chips +
      ((hand.filterMap id).map E.card_get_value).sum := by
  unfold chip_total
  simp only [Int.toNat_ofNat]
  rw [← mask_cards_length, List.take_length]
  apply Nat.add_le_add_left
  exact List.Sublist.sum_le_sum
    (List.Sublist.map _ (List.Sublist.filterMap _ (mask_cards_sublist hand m)))
    (fun a _ => Nat.zero_le a)

/-- A sub-list with fewer chips and no greater mult scores less, when the greater
product fits in 32 bits. -/
theorem score_lt (E : Externals) (c1 c2 : List (Option Card)) (k1 k2 : Int)
    (hk1 : 0 < k1) (hk2 : 0 < k2)
    (hc : chip_total E c1 k1 < chip_total E c2 k2)
    (hm : (ai_hand_base.getD (ai_compute_hand_type E c1 k1) ⟨0, 0⟩).mult ≤
      (ai_hand_base.getD (ai_compute_hand_type E c2 k2) ⟨0, 0⟩).mult)
    (hno : chip_total E c2 k2 * (ai_hand_base.getD (ai_compute_hand_type E c2 k2) ⟨0, 0⟩).mult
      < 2 ^ 32) :
    ai_score_combo E c1 k1 < ai_score_combo E c2 k2 := by
  obtain ⟨a1, a13⟩ := ai_compute_hand_type_range E c1 k1 hk1
  obtain ⟨b1, b13⟩ := ai_compute_hand_type_range E c2 k2 hk2
  obtain ⟨_, _, am1, _⟩ := ai_hand_base_bounds _ a1 a13
  obtain ⟨_, _, bm1, _⟩ := ai_hand_base_bounds _ b1 b13
  have h2 : chip_total E c2 k2 < 2 ^ 32 :=
    lt_of_le_of_lt (Nat.le_mul_of_pos_right _ bm1) hno
  have hlt : chip_total E c1 k1 * (ai_hand_base.getD (ai_compute_hand_type E c1 k1) ⟨0, 0⟩).mult
      < chip_total E c2 k2 * (ai_hand_base.getD (ai_compute_hand_type E c2 k2) ⟨0, 0⟩).mult :=
    lt_of_le_of_lt (Nat.mul_le_mul_left _ hm) (Nat.mul_lt_mul_of_pos_right hc bm1)
  rw [ai_score_combo_eq E c1 k1 hk1, ai_score_combo_eq E c2 k2 hk2,
    Nat.mod_eq_of_lt h2, Nat.mod_eq_of_lt (lt_trans hc h2),
    protected_mult_exact _ _ hno, protected_mult_exact _ _ (lt_trans hlt hno)]
  exact hlt

/-- When an admissible mask `w` has a positive score that every other admissible mask
misses, `ai_select_best_hand` returns the population count of `w` and marks its bits. -/
theorem select_of_best (E : Externals) (hand : List (Option Card))
    (out_sel : List Bool) (combo0 : List (Option Card)) (w : Nat)
    (h1 : 1 ≤ hand.length) (h8 : hand.length ≤ 8) (hout : hand.length ≤ out_sel.length)
    (hcombo : combo0.length = MAX_SELECTION_SIZE)
    (hw : admissible hand.length w) (hpos : 0 < mask_score E hand hand.length w)
    (hbest : ∀ m, admissible hand.length m → m ≠ w →
      mask_score E hand hand.length m < mask_score E hand hand.length w) :
    (ai_search E hand hand.length combo0).best_mask = w ∧
    (ai_select_best_hand E hand hand.length out_sel combo0).1 = popcount hand.length w ∧
    ∀ i, i < hand.length →
      (ai_select_best_hand E hand hand.length out_sel combo0).2.getD i false = w.testBit i := by
  obtain ⟨a, b, _, _, e, _, g⟩ := ai_search_result E hand hand.length combo0 (by omega) hcombo
  have hbs : 0 < (ai_search E hand hand.length combo0).best_score :=
    lt_of_lt_of_le hpos (e w hw)
  obtain ⟨hadm, _⟩ := g hbs
  have hbm : (ai_search E hand hand.length combo0).best_mask = w := by
    by_contra hne
    have h2 := hbest _ hadm hne
    rw [a] at h2
    have h3 := e w hw
    omega
  rw [ai_select_best_hand_pos E hand hand.length out_sel combo0 h1]
  refine ⟨hbm, ?_, ?_⟩
  · simp only
    rw [b, hbm]
  · intro i hi
    simp only
    rw [commit_clear_getD, if_pos ⟨hi, by omega⟩, hbm]

/-- The hand type does not depend on `card_get_value`. -/
theorem hand_type_val (f : Card → Nat) (cards : List (Option Card)) (count : Int) :
    ai_compute_hand_type (valExternals f) cards count =
      ai_compute_hand_type specExternals cards count := rfl

/-- When the mask `w` stands for the whole hand and every other admissible mask has a
hand type with fewer base chips and no greater base mult, the whole hand has a positive
score that every other admissible mask misses, provided its product fits in 32 bits. -/
theorem full_mask_scores (E : Externals) (hand : List (Option Card)) (w : Nat)
    (hlen : 1 ≤ hand.length)
    (hfull : mask_cards hand hand.length w = hand) (hpw : popcount hand.length w = hand.length)
    (htypes : ∀ m, admissible hand.length m → m ≠ w →
      (ai_hand_base.getD (ai_compute_hand_type E (mask_cards hand hand.length m)
          (popcount hand.length m)) ⟨0, 0⟩).chips <
        (ai_hand_base.getD (ai_compute_hand_type E hand hand.length) ⟨0, 0⟩).chips ∧
      (ai_hand_base.getD (ai_compute_hand_type E (mask_cards hand hand.length m)
          (popcount hand.length m)) ⟨0, 0⟩).mult ≤
        (ai_hand_base.getD (ai_compute_hand_type E hand hand.length) ⟨0, 0⟩).mult)
    (hno : ((ai_hand_base.getD (ai_compute_hand_type E hand hand.length) ⟨0, 0⟩).chips +
        ((hand.filterMap id).map E.card_get_value).sum) *
      (ai_hand_base.getD (ai_compute_hand_type E hand hand.length) ⟨0, 0⟩).mult < 2 ^ 32) :
    0 < mask_score E hand hand.length w ∧
    ∀ m, admissible hand.length m → m ≠ w →
      mask_score E hand hand.length m < mask_score E hand hand.length w := by
  have hct : chip_total E hand hand.length =
      (ai_hand_base.getD (ai_compute_hand_type E hand hand.length) ⟨0, 0⟩).chips +
        ((hand.filterMap id).map E.card_get_value).sum := by
    unfold chip_total
    simp only [Int.toNat_ofNat, List.take_length]
  have hk : (0 : Int) < (hand.length : Int) := by omega
  obtain ⟨r1, r13⟩ := ai_compute_hand_type_range E hand hand.length hk
  obtain ⟨_, _, m1, _⟩ := ai_hand_base_bounds _ r1 r13
  have hw : mask_score E hand hand.length w = ai_score_combo E hand hand.length := by
    unfold mask_score
    rw [hfull, hpw]
  rw [hw]
  constructor
  · apply ai_score_combo_pos E hand hand.length hk
    rw [hct]
    exact lt_of_le_of_lt (Nat.le_mul_of_pos_right _ m1) hno
  · intro m hm hne
    obtain ⟨t1, t2⟩ := htypes m hm hne
    unfold mask_score
    apply score_lt E _ _ _ _ (by
      have := popcount_pos hand.length m hm.1 hm.2.1
      omega) hk
    · rw [hct]
      exact lt_of_le_of_lt (chip_total_mask_le E hand m) (Nat.add_lt_add_right t1 _)
    · exact t2
    · rw [hct]; exact hno

/-- Claim C15: for the hand 2♣ 2♦ 7♠ 7♥ 7♦, with the external predicates as the
specification describes them and any chip values whose product for the whole hand does
not overflow, `ai_compute_hand_type` on the five cards returns `FULL_HOUSE`, and
`ai_select_best_hand` returns 5 and marks all five positions. -/
theorem full_house_scenario (f : Card → Nat) (out_sel : List Bool)
    (combo0 : List (Option Card)) (hout : 5 ≤ out_sel.length)
    (hcombo : combo0.length = MAX_SELECTION_SIZE)
    (hno : (40 + (f ⟨0, 0⟩ + (f ⟨0, 1⟩ + (f ⟨5, 2⟩ + (f ⟨5, 3⟩ + (f ⟨5, 1⟩ + 0)))))) * 4
      < 2 ^ 32) :
    ai_compute_hand_type (valExternals f) fullHouseHand 5 = FULL_HOUSE ∧
    (ai_select_best_hand (valExternals f) fullHouseHand 5 out_sel combo0).1 = 5 ∧
    ∀ i, i < 5 →
      (ai_select_best_hand (valExternals f) fullHouseHand 5 out_sel combo0).2.getD i false
        = true := by
  have htype : ai_compute_hand_type (valExternals f) fullHouseHand 5 = FULL_HOUSE := by
    rw [hand_type_val]; decide
  have hclosed : ∀ m, m < 32 → admissible 5 m → m ≠ 31 →
      (ai_hand_base.getD (ai_compute_hand_type specExternals (mask_cards fullHouseHand 5 m)
          (popcount 5 m)) ⟨0, 0⟩).chips < 40 ∧
      (ai_hand_base.getD (ai_compute_hand_type specExternals (mask_cards fullHouseHand 5 m)
          (popcount 5 m)) ⟨0, 0⟩).mult ≤ 4 := by
    decide
  obtain ⟨hpos, hbest⟩ := full_mask_scores (valExternals f) fullHouseHand 31 (by decide)
    (by decide) (by decide)
    (fun m hm hne => by
      have h := hclosed m hm.2.1 hm hne
      have e : ai_compute_hand_type (valExternals f) fullHouseHand
          (fullHouseHand.length : Nat) = 7 := htype
      rw [e, hand_type_val]
      exact h)
    (by
      have e : ai_compute_hand_type (valExternals f) fullHouseHand
          (fullHouseHand.length : Nat) = 7 := htype
      rw [e]
      exact hno)
  obtain ⟨_, hcount, hbits⟩ := select_of_best (valExternals f) fullHouseHand out_sel combo0 31
    (by decide) (by decide) hout hcombo (by decide) hpos hbest
  refine ⟨htype, hcount, ?_⟩
  intro i hi
  refine (hbits i hi).trans ?_
  interval_cases i <;> decide

set_option maxRecDepth 100000 in
/-- Claim C15, with the chip values of the game (2, 2, 7, 7, 7): the five cards are
all selected, for a score of (40 + 25) × 4. -/
theorem full_house_scenario_witness :
    ai_select_best_hand specExternals fullHouseHand 5 (List.replicate 5 false)
      (List.replicate 5 none) = (5, [true, true, true, true, true]) ∧
    (ai_select_best_hand (valExternals spec_card_value) fullHouseHand 5
      (List.replicate 5 false) (List.replicate 5 none)).1 = 5 ∧
    mask_score specExternals fullHouseHand 5 31 = (40 + 25) * 4 :=
  ⟨by decide,
   (full_house_scenario spec_card_value (List.replicate 5 false) (List.replicate 5 none)
      (by decide) (by decide) (by decide)).2.1,
   by decide⟩

set_option maxRecDepth 100000 in
/-- Claim C16 as stated fails: for the hand 3♣ 3♦ 9♠ K♥ 2♦ with the chip values of the
game, `ai_select_best_hand` returns 5 and marks all five positions, not the pair alone:
the chips of the three other cards are added too, and the pair with them scores
(10 + 27) × 2 = 74 against (10 + 6) × 2 = 32 for the pair alone. -/
theorem pair_scenario_counterexample :
    ai_select_best_hand specExternals pairScenario 5 (List.replicate 5 false)
      (List.replicate 5 none) = (5, [true, true, true, true, true]) ∧
    mask_score specExternals pairScenario 5 3 = 32 ∧
    mask_score specExternals pairScenario 5 31 = 74 ∧
    ¬ ((ai_select_best_hand specExternals pairScenario 5 (List.replicate 5 false)
        (List.replicate 5 none)).1 = 2 ∧
      (ai_select_best_hand specExternals pairScenario 5 (List.replicate 5 false)
        (List.replicate 5 none)).2 = [true, true, false, false, false]) := by
  decide

/-- Claim C16, amended: for the hand 3♣ 3♦ 9♠ K♥ 2♦ with the chip values of the game,
`ai_select_best_hand` returns 5 and marks all five positions (the pair with the three
other cards, score 74); the pair alone (mask 3, score 32) scores more than every
admissible subset that is only a High Card. -/
theorem pair_scenario_all_five (out_sel : List Bool) (combo0 : List (Option Card))
    (hout : 5 ≤ out_sel.length) (hcombo : combo0.length = MAX_SELECTION_SIZE) :
    (ai_select_best_hand specExternals pairScenario 5 out_sel combo0).1 = 5 ∧
    (∀ i, i < 5 →
      (ai_select_best_hand specExternals pairScenario 5 out_sel combo0).2.getD i false
        = true) ∧
    mask_cards pairScenario 5 3 = [some ⟨1, 0⟩, some ⟨1, 1⟩] ∧
    mask_score specExternals pairScenario 5 3 = (10 + (3 + 3)) * 2 ∧
    mask_score specExternals pairScenario 5 31 = (10 + (3 + 3 + 9 + 10 + 2)) * 2 ∧
    (∀ m, admissible 5 m →
      ai_compute_hand_type specExternals (mask_cards pairScenario 5 m) (popcount 5 m)
        = HIGH_CARD →
      mask_score specExternals pairScenario 5 m < mask_score specExternals pairScenario 5 3) := by
  have hclosed : ∀ m, m < 32 → admissible 5 m → m ≠ 31 →
      mask_score specExternals pairScenario 5 m < mask_score specExternals pairScenario 5 31 := by
    decide
  have hhigh : ∀ m, m < 32 → admissible 5 m →
      ai_compute_hand_type specExternals (mask_cards pairScenario 5 m) (popcount 5 m)
        = HIGH_CARD →
      mask_score specExternals pairScenario 5 m < mask_score specExternals pairScenario 5 3 := by
    decide
  obtain ⟨_, hcount, hbits⟩ := select_of_best specExternals pairScenario out_sel combo0 31
    (by decide) (by decide) hout hcombo (by decide) (by decide)
    (fun m hm hne => hclosed m hm.2.1 hm hne)
  refine ⟨hcount, ?_, by decide, by decide, by decide, fun m hm ht => hhigh m hm.2.1 hm ht⟩
  intro i hi
  refine (hbits i hi).trans ?_
  interval_cases i <;> decide

/-- Claim C16, amended, at a buffer that is not zeroed: the count is 5. -/
theorem pair_scenario_all_five_witness :
    (ai_select_best_hand specExternals pairScenario 5 [true, false, true, false, true]
      (List.replicate 5 none)).1 = 5 :=
  (pair_scenario_all_five [true, false, true, false, true] (List.replicate 5 none)
    (by decide) (by decide)).1

/-- Claim C17: for the hand A♠ K♠ Q♠ J♠ 10♠, with the external predicates as the
specification describes them and any chip values whose product for the whole hand does
not overflow (those of the game among them), `ai_compute_hand_type` on the five cards
returns `ROYAL_FLUSH`, not `STRAIGHT_FLUSH`, and `ai_select_best_hand` returns 5 and
marks all five positions. -/
theorem royal_flush_scenario (f : Card → Nat) (out_sel : List Bool)
    (combo0 : List (Option Card)) (hout : 5 ≤ out_sel.length)
    (hcombo : combo0.length = MAX_SELECTION_SIZE)
    (hno : (100 + (f ⟨12, 2⟩ + (f ⟨11, 2⟩ + (f ⟨10, 2⟩ + (f ⟨9, 2⟩ + (f ⟨8, 2⟩ + 0)))))) * 8
      < 2 ^ 32) :
    ai_compute_hand_type (valExternals f) royalHand 5 = ROYAL_FLUSH ∧
    ai_compute_hand_type (valExternals f) royalHand 5 ≠ STRAIGHT_FLUSH ∧
    (ai_select_best_hand (valExternals f) royalHand 5 out_sel combo0).1 = 5 ∧
    ∀ i, i < 5 →
      (ai_select_best_hand (valExternals f) royalHand 5 out_sel combo0).2.getD i false
        = true := by
  have htype : ai_compute_hand_type (valExternals f) royalHand 5 = ROYAL_FLUSH := by
    rw [hand_type_val]; decide
  have hclosed : ∀ m, m < 32 → admissible 5 m → m ≠ 31 →
      (ai_hand_base.getD (ai_compute_hand_type specExternals (mask_cards royalHand 5 m)
          (popcount 5 m)) ⟨0, 0⟩).chips < 100 ∧
      (ai_hand_base.getD (ai_compute_hand_type specExternals (mask_cards royalHand 5 m)
          (popcount 5 m)) ⟨0, 0⟩).mult ≤ 8 := by
    decide
  have e : ai_compute_hand_type (valExternals f) royalHand (royalHand.length : Nat) = 10 :=
    htype
  obtain ⟨hpos, hbest⟩ := full_mask_scores (valExternals f) royalHand 31 (by decide)
    (by decide) (by decide)
    (fun m hm hne => by
      have h := hclosed m hm.2.1 hm hne
      rw [e, hand_type_val]
      exact h)
    (by rw [e]; exact hno)
  obtain ⟨_, hcount, hbits⟩ := select_of_best (valExternals f) royalHand out_sel combo0 31
    (by decide) (by decide) hout hcombo (by decide) hpos hbest
  refine ⟨htype, by rw [htype]; decide, hcount, ?_⟩
  intro i hi
  refine (hbits i hi).trans ?_
  interval_cases i <;> decide

set_option maxRecDepth 100000 in
/-- Claim C17, with the chip values of the game (11, 10, 10, 10, 10): the five cards
are all selected, for a score of (100 + 51) × 8. -/
theorem royal_flush_scenario_witness :
    ai_select_best_hand specExternals royalHand 5 (List.replicate 5 false)
      (List.replicate 5 none) = (5, [true, true, true, true, true]) ∧
    ai_compute_hand_type (valExternals spec_card_value) royalHand 5 = ROYAL_FLUSH ∧
    mask_score specExternals royalHand 5 31 = (100 + 51) * 8 :=
  ⟨by decide,
   (royal_flush_scenario spec_card_value (List.replicate 5 false) (List.replicate 5 none)
      (by decide) (by decide) (by decide)).1,
   by decide⟩

/-! ## Eight cards of one rank -/

theorem foldl_max_absorb (k : Nat) : ∀ (t : List Nat), (∀ x, x ∈ t → x ≤ k) →
    t.foldl max k = k := by
  intro t
  induction t with
  | nil => intro _; rfl
  | cons x t ih =>
    intro h
    rw [List.foldl_cons, max_eq_left (h x (List.mem_cons_self _ _))]
    exact ih (fun y hy => h y (List.mem_cons_of_mem _ hy))

/-- The maximum of a table whose entries are at most `k`, one of them being `k`. -/
theorem foldl_max_eq (k : Nat) : ∀ (t : List Nat) (a : Nat), a ≤ k →
    (∀ x, x ∈ t → x ≤ k) → k ∈ t → t.foldl max a = k := by
  intro t
  induction t with
  | nil => intro a _ _ hmem; simp at hmem
  | cons x t ih =>
    intro a ha hle hmem
    rw [List.foldl_cons]
    rcases List.mem_cons.1 hmem with hx | ht
    · rw [← hx, max_eq_right ha]
      exact foldl_max_absorb k t (fun y hy => hle y (List.mem_cons_of_mem _ hy))
    · exact ih (max a x) (max_le ha (hle x (List.mem_cons_self _ _)))
        (fun y hy => hle y (List.mem_cons_of_mem _ hy)) ht

/-- The hand type found from tables without a flush: it is decided by `n` from four of
a kind on, and the flush categories are out of reach. -/
theorem hand_type_no_flush (E : Externals) (ranks suits : List Nat)
    (hf : E.hand_contains_flush suits = false) :
    (E.hand_contains_n_of_a_kind ranks % 256 ≥ 5 →
      highest_hand_type (contained_hand_types E ranks suits).value FLUSH_FIVE
        = FIVE_OF_A_KIND) ∧
    (E.hand_contains_n_of_a_kind ranks % 256 = 4 →
      highest_hand_type (contained_hand_types E ranks suits).value FLUSH_FIVE
        = FOUR_OF_A_KIND) ∧
    highest_hand_type (contained_hand_types E ranks suits).value FLUSH_FIVE
      ≤ FIVE_OF_A_KIND := by
  obtain ⟨a, b, c, d⟩ := highest_flag _ (contained_high_card E ranks suits)
  rw [contained_hand_types_eq] at a b c d ⊢
  simp only [hf, Bool.and_false, Bool.false_and] at a b c d ⊢
  generalize hT : highest_hand_type _ FLUSH_FIVE = T at a b c d ⊢
  have hle : T ≤ 11 := by
    by_contra hgt
    have h12 : T = 12 ∨ T = 13 := by omega
    rcases h12 with h | h <;> rw [h] at c <;> simp [ContainedHandTypes.flag] at c
  refine ⟨?_, ?_, hle⟩
  · intro h5
    have hge : 11 ≤ T := by
      by_contra hlt
      have := d 11 (by omega) (by norm_num)
      simp [ContainedHandTypes.flag, h5] at this
    simp only [FIVE_OF_A_KIND]
    omega
  · intro h4
    have hge : 8 ≤ T := by
      by_contra hlt
      have := d 8 (by omega) (by norm_num)
      simp [ContainedHandTypes.flag, h4] at this
    have hne : T ≠ 9 ∧ T ≠ 10 ∧ T ≠ 11 := by
      refine ⟨?_, ?_, ?_⟩ <;> intro h <;> rw [h] at c <;>
        simp [ContainedHandTypes.flag, h4] at c
    simp only [FOUR_OF_A_KIND]
    omega

theorem filterMap_id_length : ∀ (l : List (Option Card)),
    (∀ h, h ∈ l → ∃ c, h = some c) → (l.filterMap id).length = l.length := by
  intro l
  induction l with
  | nil => intro _; rfl
  | cons h l ih =>
    intro hall
    obtain ⟨c, rfl⟩ := hall h (List.mem_cons_self _ _)
    simp only [List.filterMap_cons, id, List.length_cons]
    rw [ih (fun h2 hh => hall h2 (List.mem_cons_of_mem _ hh))]

theorem same_rank_hand_cards (r : Nat) : ∀ (suits : List Nat),
    (same_rank_hand r suits).filterMap id = suits.map (fun s => (⟨r, s⟩ : Card)) := by
  intro suits
  induction suits with
  | nil => rfl
  | cons a l ih =>
    unfold same_rank_hand at ih ⊢
    simp only [List.map_cons, List.filterMap_cons, id]
    rw [ih]

/-- Claim C18 as stated fails: in the hand of eight Fives, the first five cards form an
admissible subset that `ai_compute_hand_type` classifies `FIVE_OF_A_KIND`, a category
stronger than `FOUR_OF_A_KIND`. -/
theorem five_of_a_kind_counterexample :
    eightFives = same_rank_hand 3 [0, 1, 2, 3, 0, 1, 2, 3] ∧
    admissible 8 31 ∧ popcount 8 31 = 5 ∧
    ai_compute_hand_type specExternals (mask_cards eightFives 8 31) (popcount 8 31)
      = FIVE_OF_A_KIND ∧
    FOUR_OF_A_KIND < FIVE_OF_A_KIND := by
  decide

/-- Claim C18, amended: for a hand of 8 cards of one rank in which each of the 4 suits
appears twice, with `n` the maximum rank frequency and a flush needing 5 cards of a
suit, every admissible subset of 5 cards is classified `FIVE_OF_A_KIND`, every subset
of 4 cards `FOUR_OF_A_KIND`, and no admissible subset is classified above
`FIVE_OF_A_KIND`. -/
theorem same_rank_types (E : Externals)
    (hn : ∀ t, E.hand_contains_n_of_a_kind t = t.foldl max 0)
    (hf : ∀ t, E.hand_contains_flush t = t.any (fun x => decide (5 ≤ x)))
    (r : Nat) (suits : List Nat) (hr : r < NUM_RANKS) (hlen : suits.length = 8)
    (hs4 : ∀ s, s ∈ suits → s < NUM_SUITS)
    (htwice : ∀ s, s < NUM_SUITS → suits.count s = 2)
    (m : Nat) (hm : admissible 8 m) :
    (popcount 8 m = 5 →
      ai_compute_hand_type E (mask_cards (same_rank_hand r suits) 8 m) (popcount 8 m)
        = FIVE_OF_A_KIND) ∧
    (popcount 8 m = 4 →
      ai_compute_hand_type E (mask_cards (same_rank_hand r suits) 8 m) (popcount 8 m)
        = FOUR_OF_A_KIND) ∧
    ai_compute_hand_type E (mask_cards (same_rank_hand r suits) 8 m) (popcount 8 m)
      ≤ FIVE_OF_A_KIND := by
  have hhl : (same_rank_hand r suits).length = 8 := by simp [same_rank_hand, hlen]
  have hsub : (mask_cards (same_rank_hand r suits) 8 m).Sublist (same_rank_hand r suits) := by
    have := mask_cards_sublist (same_rank_hand r suits) m
    rwa [hhl] at this
  have hk := mask_cards_length (same_rank_hand r suits) 8 m
  have hk1 := popcount_pos 8 m hm.1 hm.2.1
  have hk5 : popcount 8 m ≤ 5 := by
    have := hm.2.2
    simp only [MAX_SELECTION_SIZE] at this
    omega
  generalize hsubdef : mask_cards (same_rank_hand r suits) 8 m = sub at hsub hk ⊢
  generalize hkdef : popcount 8 m = k at hk hk1 hk5 ⊢
  have hmem : ∀ h, h ∈ sub → ∃ s, s ∈ suits ∧ h = some ⟨r, s⟩ := by
    intro h hh
    have := hsub.subset hh
    unfold same_rank_hand at this
    obtain ⟨s, hs, rfl⟩ := List.mem_map.1 this
    exact ⟨s, hs, rfl⟩
  have htake : sub.take k = sub := by rw [← hk, List.take_length]
  have hlen' : (sub.filterMap id).length = k := by
    rw [filterMap_id_length sub (fun h hh => by
      obtain ⟨s, _, rfl⟩ := hmem h hh
      exact ⟨_, rfl⟩), hk]
  have hcards : ∀ c, c ∈ sub.filterMap id → c.rank = r ∧ c.suit ∈ suits := by
    intro c hc
    obtain ⟨h, hh, he⟩ := List.mem_filterMap.1 hc
    obtain ⟨s, hs, rfl⟩ := hmem h hh
    simp only [id, Option.some.injEq] at he
    subst he
    exact ⟨rfl, hs⟩
  obtain ⟨len13, _, hrk, hst⟩ := scan_cards_exact sub k (by omega) (fun c hc => by
    rw [htake] at hc
    obtain ⟨s, hs, he⟩ := hmem _ hc
    simp only [Option.some.injEq] at he
    subst he
    exact ⟨hr, hs4 s hs⟩)
  rw [htake] at hrk hst
  have hmax : (scan_cards sub k).ranks.foldl max 0 = k := by
    apply foldl_max_eq k _ 0 (Nat.zero_le _)
    · intro x hx
      obtain ⟨i, hi, rfl⟩ := List.getElem_of_mem hx
      have := hrk i
      rw [List.getD_eq_getElem _ _ hi] at this
      rw [this, ← hlen']
      exact List.countP_le_length _
    · have h1 := hrk r
      have h2 : (sub.filterMap id).countP (fun c => c.rank = r) = (sub.filterMap id).length :=
        List.countP_eq_length.2 (fun c hc => by simp [(hcards c hc).1])
      have hlt : r < (scan_cards sub k).ranks.length := by rw [len13]; exact hr
      rw [List.getD_eq_getElem _ _ hlt, h2, hlen'] at h1
      have hm2 := List.getElem_mem hlt
      rw [h1] at hm2
      exact hm2
  have hcount : ∀ s, (sub.filterMap id).countP (fun c => c.suit = s) ≤ 2 := by
    intro s
    have h1 := List.Sublist.countP_le (fun c : Card => decide (c.suit = s))
      (List.Sublist.filterMap id hsub)
    rw [same_rank_hand_cards, List.countP_map] at h1
    have h3 : List.countP ((fun c : Card => decide (c.suit = s)) ∘ fun s => (⟨r, s⟩ : Card)) suits
        = suits.count s := by
      rw [List.count_eq_countP]
      apply List.countP_congr
      intro x _
      simp
    rw [h3] at h1
    by_cases hs : s < NUM_SUITS
    · rw [htwice s hs] at h1; exact h1
    · have : suits.count s = 0 :=
        List.count_eq_zero_of_not_mem (fun hmem2 => hs (hs4 s hmem2))
      omega
  have hflush : E.hand_contains_flush (scan_cards sub k).suits = false := by
    rw [hf, List.any_eq_false]
    intro x hx
    obtain ⟨i, hi, rfl⟩ := List.getElem_of_mem hx
    have := hst i
    rw [List.getD_eq_getElem _ _ hi] at this
    have h2 := hcount i
    simp only [decide_eq_true_eq, not_le]
    omega
  obtain ⟨t5, t4, tle⟩ := hand_type_no_flush E (scan_cards sub k).ranks
    (scan_cards sub k).suits hflush
  rw [hn, hmax, Nat.mod_eq_of_lt (by omega)] at t5 t4
  rw [ai_compute_hand_type_pos E sub k (by omega)]
  simp only [Int.toNat_ofNat]
  exact ⟨fun h => t5 (by omega), fun h => t4 h, tle⟩

/-- Claim C18, amended, at the hand of eight Fives: its first five cards are classified
`FIVE_OF_A_KIND`. -/
theorem same_rank_types_witness :
    ai_compute_hand_type specExternals
      (mask_cards (same_rank_hand 3 [0, 1, 2, 3, 0, 1, 2, 3]) 8 31) (popcount 8 31)
        = FIVE_OF_A_KIND :=
  (same_rank_types specExternals (fun _ => rfl) (fun _ => rfl) 3 [0, 1, 2, 3, 0, 1, 2, 3]
    (by decide) (by decide) (by decide) (by decide) 31 (by decide)).1 (by decide)

/-! ## Order of the cards -/

theorem u8_incr_comm (t : List Nat) (i j : Nat) :
    u8_incr (u8_incr t i) j = u8_incr (u8_incr t j) i := by
  by_cases h : i = j
  · subst h; rfl
  · unfold u8_incr
    have h1 : (t.set i ((t.getD i 0 + 1) % 256)).getD j 0 = t.getD j 0 := by
      rw [getD_set, if_neg (fun hc => h hc.1)]
    have h2 : (t.set j ((t.getD j 0 + 1) % 256)).getD i 0 = t.getD i 0 := by
      rw [getD_set, if_neg (fun hc => h hc.1.symm)]
    rw [h1, h2, List.set_comm _ _ _ h]

theorem scan_card_comm (t : FreqTables) (a b : Option Card) :
    scan_card (scan_card t a) b = scan_card (scan_card t b) a := by
  cases a with
  | none => rfl
  | some x =>
    cases b with
    | none => rfl
    | some y =>
      simp only [scan_card]
      rw [u8_incr_comm t.ranks x.rank y.rank, u8_incr_comm t.suits x.suit y.suit]

theorem add_card_value_comm (E : Externals) (c : Nat) (a b : Option Card) :
    add_card_value E (add_card_value E c a) b = add_card_value E (add_card_value E c b) a := by
  cases a with
  | none => rfl
  | some x =>
    cases b with
    | none => rfl
    | some y =>
      simp only [add_card_value]
      norm_num
      omega

/-- The tables, the hand type and the score of a list read in full do not depend on
the order of its handles. -/
theorem perm_invariant (E : Externals) (l1 l2 : List (Option Card)) (h : l1.Perm l2) :
    scan_cards l1 l1.length = scan_cards l2 l2.length ∧
    ai_compute_hand_type E l1 l1.length = ai_compute_hand_type E l2 l2.length ∧
    ai_score_combo E l1 l1.length = ai_score_combo E l2 l2.length := by
  haveI : RightCommutative scan_card := ⟨scan_card_comm⟩
  haveI : RightCommutative (add_card_value E) := ⟨add_card_value_comm E⟩
  have hscan : scan_cards l1 l1.length = scan_cards l2 l2.length := by
    unfold scan_cards
    rw [List.take_length, List.take_length]
    exact List.Perm.foldl_eq h _
  have htype : ai_compute_hand_type E l1 l1.length = ai_compute_hand_type E l2 l2.length := by
    unfold ai_compute_hand_type
    simp only [Int.toNat_ofNat]
    rw [hscan, h.length_eq]
  refine ⟨hscan, htype, ?_⟩
  unfold ai_score_combo
  simp only [Int.toNat_ofNat]
  rw [htype, List.take_length, List.take_length]
  split
  · rfl
  · rw [List.Perm.foldl_eq h _]

/-- Claim C21: for every list of card handles and every permutation of it,
`ai_compute_hand_type` returns the same hand type and `ai_score_combo` the same score;
the rank and suit tables are the same too. -/
theorem order_independent (E : Externals) (l1 l2 : List (Option Card)) (h : l1.Perm l2) :
    ai_compute_hand_type E l1 l1.length = ai_compute_hand_type E l2 l2.length ∧
    ai_score_combo E l1 l1.length = ai_score_combo E l2 l2.length ∧
    scan_cards l1 l1.length = scan_cards l2 l2.length := by
  obtain ⟨a, b, c⟩ := perm_invariant E l1 l2 h
  exact ⟨b, c, a⟩

/-- Claim C21, at a concrete hand: 3♣ 3♦ 9♠ and 9♠ 3♣ 3♦ are both a pair scoring 50. -/
theorem order_independent_witness :
    ai_score_combo specExternals pairHand 3 =
      ai_score_combo specExternals [some ⟨7, 2⟩, some ⟨1, 0⟩, some ⟨1, 1⟩] 3 ∧
    ai_score_combo specExternals pairHand 3 = 50 :=
  ⟨(order_independent specExternals pairHand [some ⟨7, 2⟩, some ⟨1, 0⟩, some ⟨1, 1⟩]
      (by decide)).2.1,
   by decide⟩

/-! ## The score under the chip values of the game -/

/-- The chip values of at most `count` handles, each at most `b`, sum to at most
`count * b`. -/
theorem chip_values_le (E : Externals) (cards : List (Option Card)) (count b : Nat)
    (hv : ∀ c, some c ∈ cards.take count → E.card_get_value c ≤ b) :
    (((cards.take count).filterMap id).map E.card_get_value).sum ≤ count * b := by
  have h1 := List.sum_le_card_nsmul (((cards.take count).filterMap id).map E.card_get_value) b
    (fun x hx => by
      obtain ⟨c, hc, rfl⟩ := List.mem_map.1 hx
      obtain ⟨h, hh, he⟩ := List.mem_filterMap.1 hc
      simp only [id] at he
      subst he
      exact hv c hh)
  rw [List.length_map, smul_eq_mul] at h1
  have h2 : ((cards.take count).filterMap id).length ≤ count :=
    le_trans (List.length_filterMap_le _ _) (List.length_take_le _ _)
  exact le_trans h1 (Nat.mul_le_mul_right _ h2)

/-- Claim C24: for a sub-list of 1 to 5 cards whose chip values are each at most 11,
`ai_score_combo` returns the exact product of the chips (base chips plus the chip
values) and the base mult, between 5 and (160 + 55) × 16 = 3440; the chips stay below
`2 ^ 32` (no wrap-around) and the guard of the saturating branch is false. -/
theorem score_range_game_values (E : Externals) (cards : List (Option Card)) (count : Nat)
    (h1 : 1 ≤ count) (h5 : count ≤ 5)
    (hv : ∀ c, some c ∈ cards.take count → E.card_get_value c ≤ 11) :
    ai_score_combo E cards count =
      ((ai_hand_base.getD (ai_compute_hand_type E cards count) ⟨0, 0⟩).chips +
        (((cards.take count).filterMap id).map E.card_get_value).sum) *
      (ai_hand_base.getD (ai_compute_hand_type E cards count) ⟨0, 0⟩).mult ∧
    5 ≤ ai_score_combo E cards count ∧
    ai_score_combo E cards count ≤ (160 + 55) * 16 ∧
    (160 + 55) * 16 = 3440 ∧
    (ai_hand_base.getD (ai_compute_hand_type E cards count) ⟨0, 0⟩).chips +
      (((cards.take count).filterMap id).map E.card_get_value).sum < 2 ^ 32 ∧
    ¬ ((ai_hand_base.getD (ai_compute_hand_type E cards count) ⟨0, 0⟩).chips +
        (((cards.take count).filterMap id).map E.card_get_value).sum >
      0xFFFFFFFF / (ai_hand_base.getD (ai_compute_hand_type E cards count) ⟨0, 0⟩).mult) := by
  have hk : (0 : Int) < (count : Int) := by omega
  obtain ⟨r1, r13⟩ := ai_compute_hand_type_range E cards count hk
  obtain ⟨c5, c160, m1, m16⟩ := ai_hand_base_bounds _ r1 r13
  have hsum := chip_values_le E cards count 11 hv
  have hct : chip_total E cards count =
      (ai_hand_base.getD (ai_compute_hand_type E cards count) ⟨0, 0⟩).chips +
        (((cards.take count).filterMap id).map E.card_get_value).sum := by
    unfold chip_total
    simp only [Int.toNat_ofNat]
  generalize hC : (ai_hand_base.getD (ai_compute_hand_type E cards count) ⟨0, 0⟩).chips = C
    at c5 c160 hct ⊢
  generalize hM : (ai_hand_base.getD (ai_compute_hand_type E cards count) ⟨0, 0⟩).mult = M
    at m1 m16 ⊢
  generalize hS : (((cards.take count).filterMap id).map E.card_get_value).sum = S
    at hsum hct ⊢
  have hS55 : S ≤ 55 := by
    have : count * 11 ≤ 55 := by omega
    omega
  have hup : (C + S) * M ≤ (160 + 55) * 16 :=
    Nat.mul_le_mul (by omega) m16
  have hlo : 5 ≤ (C + S) * M :=
    le_trans (by omega : 5 ≤ C + S) (Nat.le_mul_of_pos_right _ m1)
  have hscore : ai_score_combo E cards count = (C + S) * M := by
    rw [ai_score_combo_eq E cards count hk, hM, hct, Nat.mod_eq_of_lt (by omega),
      protected_mult_exact _ _ (by omega)]
  refine ⟨hscore, by rw [hscore]; exact hlo, by rw [hscore]; exact hup, by norm_num,
    by omega, ?_⟩
  intro hgt
  have := (Nat.div_lt_iff_lt_mul (by omega : 0 < M)).1 hgt
  omega

/-- Claim C24, at a concrete hand: 3♣ 3♦ 9♠ scores exactly (10 + 15) × 2 = 50. -/
theorem score_range_game_values_witness :
    ai_score_combo specExternals pairHand 3 = (10 + 15) * 2 ∧
    5 ≤ ai_score_combo specExternals pairHand 3 ∧
    ai_score_combo specExternals pairHand 3 ≤ (160 + 55) * 16 :=
  ⟨by decide,
   (score_range_game_values specExternals pairHand 3 (by decide) (by decide) (fun c hc => by
      simp only [pairHand, List.take, List.mem_cons, Option.some.injEq, List.mem_nil_iff,
        or_false] at hc
      rcases hc with rfl | rfl | rfl <;> decide)).2.1,
   (score_range_game_values specExternals pairHand 3 (by decide) (by decide) (fun c hc => by
      simp only [pairHand, List.take, List.mem_cons, Option.some.injEq, List.mem_nil_iff,
        or_false] at hc
      rcases hc with rfl | rfl | rfl <;> decide)).2.2.1⟩

/-! ## One more card in the same category -/

/-- The chips of a list read in full. -/
theorem chip_total_length (E : Externals) (l : List (Option Card)) :
    chip_total E l l.length =
      (ai_hand_base.getD (ai_compute_hand_type E l l.length) ⟨0, 0⟩).chips +
        ((l.filterMap id).map E.card_get_value).sum := by
  unfold chip_total
  simp only [Int.toNat_ofNat, List.take_length]

/-- A list with one more handle, of the same hand type and with chips that do not
wrap: the chips grow by the chip value of the handle and the score does not drop. -/
theorem kicker_le (E : Externals) (S S2 : List (Option Card)) (h : Option Card)
    (hperm : S2.Perm (h :: S))
    (htype : ai_compute_hand_type E S S.length = ai_compute_hand_type E S2 S2.length)
    (hnowrap : chip_total E S2 S2.length < 2 ^ 32) :
    0 < S.length ∧
    chip_total E S2 S2.length =
      chip_total E S S.length + ((h.map E.card_get_value).getD 0) ∧
    ai_score_combo E S S.length ≤ ai_score_combo E S2 S2.length := by
  have hl2 : S2.length = S.length + 1 := by rw [hperm.length_eq]; rfl
  have hk2 : (0 : Int) < (S2.length : Int) := by omega
  obtain ⟨r1, r13⟩ := ai_compute_hand_type_range E S2 S2.length hk2
  have hpos : 0 < S.length := by
    by_contra h0
    have hz : S = [] := List.length_eq_zero.1 (by omega)
    rw [hz] at htype
    have hnil : ai_compute_hand_type E [] (([] : List (Option Card)).length : Nat) = 0 := by
      simp [ai_compute_hand_type, NONE]
    rw [hnil] at htype
    omega
  have hsum : ((S2.filterMap id).map E.card_get_value).sum =
      ((S.filterMap id).map E.card_get_value).sum + ((h.map E.card_get_value).getD 0) := by
    rw [((hperm.filterMap id).map E.card_get_value).sum_eq]
    cases h with
    | none => simp
    | some c => simp [Nat.add_comm]
  have hct : chip_total E S2 S2.length =
      chip_total E S S.length + ((h.map E.card_get_value).getD 0) := by
    rw [chip_total_length, chip_total_length, ← htype, hsum, Nat.add_assoc]
  obtain ⟨_, _, _, m16⟩ := ai_hand_base_bounds _ r1 r13
  refine ⟨hpos, hct, ?_⟩
  rw [ai_score_combo_eq E S S.length (by omega), ai_score_combo_eq E S2 S2.length hk2,
    Nat.mod_eq_of_lt hnowrap, Nat.mod_eq_of_lt (by omega), htype,
    protected_mult_eq_min _ _ (by omega), protected_mult_eq_min _ _ (by omega)]
  exact min_le_min (Nat.mul_le_mul_right _ (by omega)) (le_refl _)

/-- Setting one more bit of a mask adds the card at that position to its sub-list. -/
theorem mask_cards_insert (hand : List (Option Card)) (n m i : Nat) (hi : i < n)
    (hb : m.testBit i = false) :
    (mask_cards hand n (m ||| 2 ^ i)).Perm (hand.getD i none :: mask_cards hand n m) := by
  have hpos : (mask_positions n (m ||| 2 ^ i)).Perm (i :: mask_positions n m) := by
    unfold mask_positions
    rw [List.perm_ext_iff_of_nodup ((List.nodup_range n).filter _)]
    · intro a
      simp only [List.mem_filter, List.mem_range, Nat.testBit_or, Nat.testBit_two_pow,
        Bool.or_eq_true, decide_eq_true_eq, List.mem_cons]
      constructor
      · rintro ⟨ha, h1 | h2⟩
        · exact Or.inr ⟨ha, h1⟩
        · exact Or.inl h2.symm
      · rintro (h1 | ⟨ha, h2⟩)
        · exact ⟨by omega, Or.inr h1.symm⟩
        · exact ⟨ha, Or.inl h2⟩
    · rw [List.nodup_cons]
      refine ⟨?_, (List.nodup_range n).filter _⟩
      simp only [List.mem_filter, List.mem_range, not_and]
      intro _
      rw [hb]
      exact Bool.false_ne_true
  exact hpos.map _

/-- When a card `c` is added to a sub-list `S` (at any position), the classifier returns
the same hand type for both and the chips of the larger list do not wrap modulo
`2 ^ 32`, the score of the larger list is at least that of `S`, and greater when `c` has
a positive chip value and the product does not saturate. For the selector: an admissible
mask never scores more than the same mask with one more bit, when both have the same
hand type and the chips of the larger do not wrap; if the smaller mask is the winner,
the two scores are equal. -/
theorem kicker_no_wrap (E : Externals) (S S2 : List (Option Card)) (c : Card)
    (hperm : S2.Perm (some c :: S))
    (htype : ai_compute_hand_type E S S.length = ai_compute_hand_type E S2 S2.length)
    (hnowrap : chip_total E S2 S2.length < 2 ^ 32) :
    ai_score_combo E S S.length ≤ ai_score_combo E S2 S2.length ∧
    (0 < E.card_get_value c →
      chip_total E S2 S2.length *
        (ai_hand_base.getD (ai_compute_hand_type E S2 S2.length) ⟨0, 0⟩).mult < 2 ^ 32 →
      ai_score_combo E S S.length < ai_score_combo E S2 S2.length) ∧
    (∀ (hand combo0 : List (Option Card)) (m i : Nat),
      hand.length ≤ 8 → combo0.length = MAX_SELECTION_SIZE →
      admissible hand.length m → i < hand.length → m.testBit i = false →
      admissible hand.length (m ||| 2 ^ i) →
      ai_compute_hand_type E (mask_cards hand hand.length m) (popcount hand.length m) =
        ai_compute_hand_type E (mask_cards hand hand.length (m ||| 2 ^ i))
          (popcount hand.length (m ||| 2 ^ i)) →
      chip_total E (mask_cards hand hand.length (m ||| 2 ^ i))
        (popcount hand.length (m ||| 2 ^ i)) < 2 ^ 32 →
      mask_score E hand hand.length m ≤ mask_score E hand hand.length (m ||| 2 ^ i) ∧
      ((ai_search E hand hand.length combo0).best_mask = m →
        mask_score E hand hand.length (m ||| 2 ^ i) = mask_score E hand hand.length m)) := by
  obtain ⟨hpos, hct, hle⟩ := kicker_le E S S2 (some c) hperm htype hnowrap
  refine ⟨hle, ?_, ?_⟩
  · intro hv hno
    have hl2 : S2.length = S.length + 1 := by rw [hperm.length_eq]; rfl
    apply score_lt E S S2 S.length S2.length (by omega) (by omega)
    · rw [hct]
      simp only [Option.map_some', Option.getD_some]
      omega
    · rw [htype]
    · exact hno
  · intro hand combo0 m i h8 hcombo _ hi hb hadm2 ht hnw
    rw [← mask_cards_length hand hand.length m,
      ← mask_cards_length hand hand.length (m ||| 2 ^ i)] at ht
    rw [← mask_cards_length hand hand.length (m ||| 2 ^ i)] at hnw
    obtain ⟨_, _, hle2⟩ := kicker_le E _ _ (hand.getD i none)
      (mask_cards_insert hand hand.length m i hi hb) ht hnw
    rw [mask_cards_length hand hand.length m,
      mask_cards_length hand hand.length (m ||| 2 ^ i)] at hle2
    refine ⟨hle2, ?_⟩
    intro hbest
    obtain ⟨a, _, _, _, e, _, _⟩ :=
      ai_search_result E hand hand.length combo0 (by omega) hcombo
    have h1 := e _ hadm2
    rw [hbest] at a
    unfold mask_score at a h1 ⊢
    omega

/-! ## Chip values of the data model -/

/-- With chip values of the data model the chips of a list are at most 160 plus 255 for
each card, and the mult of its hand type is at most 16. -/
theorem small_values_chips (E : Externals) (l : List (Option Card)) (hv : small_values E l) :
    chip_total E l l.length ≤ 160 + l.length * MAX_CHIP_VALUE ∧
    (ai_hand_base.getD (ai_compute_hand_type E l l.length) ⟨0, 0⟩).mult ≤ 16 := by
  have hsum := chip_values_le E l l.length MAX_CHIP_VALUE
    (fun c hc => hv c (by rw [List.take_length] at hc; exact hc))
  rw [List.take_length] at hsum
  rw [chip_total_length]
  by_cases h0 : l.length = 0
  · have hl : l = [] := List.length_eq_zero.1 h0
    subst hl
    have hnil : ai_compute_hand_type E [] (([] : List (Option Card)).length : Nat) = 0 := by
      simp [ai_compute_hand_type, NONE]
    rw [hnil]
    simp [ai_hand_base]
  · obtain ⟨a, b⟩ := ai_compute_hand_type_range E l l.length (by omega)
    obtain ⟨_, c, _, d⟩ := ai_hand_base_bounds _ a b
    exact ⟨by omega, d⟩

/-- With chip values of the data model no candidate of the search has chips above 1435
or a product above 22960: neither the wrap-around nor the saturation is reached. -/
theorem small_values_mask (E : Externals) (hand : List (Option Card)) (m : Nat)
    (hv : small_values E hand) (hm : admissible hand.length m) :
    chip_total E (mask_cards hand hand.length m) (popcount hand.length m) ≤ 1435 ∧
    chip_total E (mask_cards hand hand.length m) (popcount hand.length m) *
      (ai_hand_base.getD (ai_compute_hand_type E (mask_cards hand hand.length m)
        (popcount hand.length m)) ⟨0, 0⟩).mult ≤ 22960 := by
  have hv2 : small_values E (mask_cards hand hand.length m) :=
    fun c hc => hv c ((mask_cards_sublist hand m).subset hc)
  obtain ⟨a, b⟩ := small_values_chips E _ hv2
  rw [mask_cards_length] at a b
  have h5 : popcount hand.length m ≤ 5 := by
    have := hm.2.2
    simp only [MAX_SELECTION_SIZE] at this
    omega
  simp only [MAX_CHIP_VALUE] at a
  have a2 : chip_total E (mask_cards hand hand.length m) (popcount hand.length m) ≤ 1435 := by
    omega
  exact ⟨a2, by nlinarith⟩

/-- The cards 3♣ 3♦ 9♠ have chip values of the data model (3, 3 and 9). -/
theorem small_values_pairHand : small_values specExternals pairHand := by
  intro c hc
  simp only [pairHand, List.mem_cons, Option.some.injEq, List.mem_nil_iff, or_false] at hc
  rcases hc with rfl | rfl | rfl <;> decide

/-- Claim C2: for a hand of 1 to 8 cards with chip values of the data model, the final
`out_sel` marks the bits of the winning mask, and the winning mask is the numerically
smallest mask of `1 .. 2^count - 1` among the admissible masks that attain the maximum
combo score: a later mask with an equal score does not replace an earlier one. -/
theorem select_best_first_max (E : Externals) (hand : List (Option Card))
    (out_sel : List Bool) (combo0 : List (Option Card))
    (h1 : 1 ≤ hand.length) (h8 : hand.length ≤ 8) (hout : hand.length ≤ out_sel.length)
    (hcombo : combo0.length = MAX_SELECTION_SIZE) (hval : small_values E hand) :
    marks (ai_select_best_hand E hand hand.length out_sel combo0).2 hand.length
      (ai_search E hand hand.length combo0).best_mask ∧
    is_first_best E hand hand.length (ai_search E hand hand.length combo0).best_mask := by
  obtain ⟨a, b, _⟩ := first_max_of_pos E hand out_sel combo0 h1 h8 hout hcombo
  have hadm := admissible_one hand.length h1
  refine ⟨a, b ⟨1, hadm, ?_⟩⟩
  unfold mask_score
  apply ai_score_combo_pos
  · have := popcount_pos hand.length 1 hadm.1 hadm.2.1
    omega
  · have := (small_values_mask E hand 1 hval hadm).1
    omega

/-- Claim C2 at a concrete hand: in 3♣ 3♦ 9♠, with the chip values of the game, the
winning mask is 7 (all three cards), the smallest admissible mask attaining the
maximum. -/
theorem select_best_first_max_witness :
    small_values specExternals pairHand ∧
    (ai_search specExternals pairHand 3 (List.replicate 5 none)).best_mask = 7 ∧
    is_first_best specExternals pairHand 3
      (ai_search specExternals pairHand 3 (List.replicate 5 none)).best_mask :=
  ⟨small_values_pairHand, by decide,
   (select_best_first_max specExternals pairHand [true, false, true] (List.replicate 5 none)
      (by decide) (by decide) (by decide) (by decide) small_values_pairHand).2⟩

/-- Claim C22: when a card `c` is added (at any position) to a sub-list `S` of at most 4
cards, with chip values of the data model, and the classifier returns the same hand
type for both, the score of the larger list is at least that of `S`, and greater when
`c` has a positive chip value (neither saturation nor wrap-around is reached). Hence, in
the selector, an admissible mask never scores more than the same mask with one more bit
and the same hand type; the smaller mask is the winner only if the two scores are equal,
which needs a card of chip value 0 at the added position. -/
theorem kicker_monotone (E : Externals) (S S2 : List (Option Card)) (c : Card)
    (hlen : S.length ≤ 4) (hperm : S2.Perm (some c :: S)) (hval : small_values E S2)
    (htype : ai_compute_hand_type E S S.length = ai_compute_hand_type E S2 S2.length) :
    ai_score_combo E S S.length ≤ ai_score_combo E S2 S2.length ∧
    (0 < E.card_get_value c → ai_score_combo E S S.length < ai_score_combo E S2 S2.length) ∧
    (∀ (hand combo0 : List (Option Card)) (m i : Nat),
      hand.length ≤ 8 → combo0.length = MAX_SELECTION_SIZE → small_values E hand →
      admissible hand.length m → i < hand.length → m.testBit i = false →
      admissible hand.length (m ||| 2 ^ i) →
      ai_compute_hand_type E (mask_cards hand hand.length m) (popcount hand.length m) =
        ai_compute_hand_type E (mask_cards hand hand.length (m ||| 2 ^ i))
          (popcount hand.length (m ||| 2 ^ i)) →
      mask_score E hand hand.length m ≤ mask_score E hand hand.length (m ||| 2 ^ i) ∧
      ((ai_search E hand hand.length combo0).best_mask = m →
        mask_score E hand hand.length (m ||| 2 ^ i) = mask_score E hand hand.length m ∧
        ∀ d, hand.getD i none = some d → E.card_get_value d = 0)) := by
  have hl2 : S2.length = S.length + 1 := by rw [hperm.length_eq]; rfl
  obtain ⟨hc, hmu⟩ := small_values_chips E S2 hval
  have hc2 : chip_total E S2 S2.length ≤ 1435 := by
    simp only [MAX_CHIP_VALUE] at hc
    omega
  have hno : chip_total E S2 S2.length *
      (ai_hand_base.getD (ai_compute_hand_type E S2 S2.length) ⟨0, 0⟩).mult < 2 ^ 32 := by
    nlinarith
  obtain ⟨a, b, c3⟩ := kicker_no_wrap E S S2 c hperm htype (by omega)
  refine ⟨a, fun hv => b hv hno, ?_⟩
  intro hand combo0 m i h8 hcombo hvh hm hi hb hm2 ht
  obtain ⟨x, y⟩ := small_values_mask E hand (m ||| 2 ^ i) hvh hm2
  obtain ⟨p, q⟩ := c3 hand combo0 m i h8 hcombo hm hi hb hm2 ht (by omega)
  refine ⟨p, fun hbest => ⟨q hbest, ?_⟩⟩
  intro d hd
  by_contra hpos
  have hlt : ai_score_combo E (mask_cards hand hand.length m)
        (mask_cards hand hand.length m).length
      < ai_score_combo E (mask_cards hand hand.length (m ||| 2 ^ i))
          (mask_cards hand hand.length (m ||| 2 ^ i)).length := by
    have hp := mask_cards_insert hand hand.length m i hi hb
    rw [hd] at hp
    have ht2 := ht
    rw [← mask_cards_length hand hand.length m,
      ← mask_cards_length hand hand.length (m ||| 2 ^ i)] at ht2
    have hnw : chip_total E (mask_cards hand hand.length (m ||| 2 ^ i))
        (mask_cards hand hand.length (m ||| 2 ^ i)).length < 2 ^ 32 := by
      rw [mask_cards_length]; omega
    refine (kicker_no_wrap E _ _ d hp ht2 hnw).2.1 (by omega) ?_
    rw [mask_cards_length]
    omega
  rw [mask_cards_length, mask_cards_length] at hlt
  have := q hbest
  unfold mask_score at this
  omega

/-- Claim C22 at a concrete hand: the pair 3♣ 3♦ scores 32 and, with the 9♠ added, 50,
both being a Pair. -/
theorem kicker_monotone_witness :
    ai_score_combo specExternals [some ⟨1, 0⟩, some ⟨1, 1⟩] 2 = 32 ∧
    ai_score_combo specExternals pairHand 3 = 50 ∧
    ai_score_combo specExternals [some ⟨1, 0⟩, some ⟨1, 1⟩] 2 <
      ai_score_combo specExternals pairHand 3 :=
  ⟨by decide, by decide,
   (kicker_monotone specExternals [some ⟨1, 0⟩, some ⟨1, 1⟩] pairHand ⟨7, 2⟩
      (by decide) (by decide) small_values_pairHand (by decide)).2.1 (by decide)⟩

/-! ## Array indices -/

/-- Every assignment of the loop that fills `combo` writes below `MAX_SELECTION_SIZE`
and reads a position of the hand that the loop is allowed to visit. -/
theorem build_combo_accesses_bounds (mask : Nat) (k : Nat) : ∀ (i ci : Nat) (a : Nat × Nat),
    a ∈ build_combo_accesses mask k i ci →
    ci ≤ a.1 ∧ a.1 < MAX_SELECTION_SIZE ∧ i ≤ a.2 ∧ a.2 < i + k := by
  induction k with
  | zero =>
    intro i ci a ha
    simp [build_combo_accesses] at ha
  | succ k ih =>
    intro i ci a ha
    unfold build_combo_accesses at ha
    by_cases hci : ci < MAX_SELECTION_SIZE
    · rw [if_pos hci] at ha
      by_cases hb : mask &&& (1 <<< i) ≠ 0
      · rw [if_pos hb] at ha
        rcases List.mem_cons.1 ha with h | h
        · subst h
          exact ⟨le_refl _, hci, le_refl _, by omega⟩
        · obtain ⟨a1, a2, a3, a4⟩ := ih (i + 1) (ci + 1) a h
          exact ⟨by omega, a2, by omega, by omega⟩
      · rw [if_neg hb] at ha
        obtain ⟨a1, a2, a3, a4⟩ := ih (i + 1) ci a ha
        exact ⟨a1, a2, by omega, by omega⟩
    · rw [if_neg hci] at ha
      simp at ha

/-- The accesses listed are those of `build_combo`: the write index ends at its
initial value plus their number. -/
theorem build_combo_accesses_length (hand : List (Option Card)) (mask : Nat) (k : Nat) :
    ∀ (i ci : Nat) (combo : List (Option Card)),
    (build_combo hand mask k i ci combo).2 = ci + (build_combo_accesses mask k i ci).length := by
  induction k with
  | zero => intro i ci combo; rfl
  | succ k ih =>
    intro i ci combo
    unfold build_combo build_combo_accesses
    by_cases hci : ci < MAX_SELECTION_SIZE
    · rw [if_pos hci, if_pos hci]
      by_cases hb : mask &&& (1 <<< i) ≠ 0
      · rw [if_pos hb, if_pos hb, ih, List.length_cons]
        omega
      · rw [if_neg hb, if_neg hb, ih]
    · rw [if_neg hci, if_neg hci]
      rfl

/-- Claim C23: for a hand of 1 to 8 cards with ranks below 13 and suits below 4, and
for every admissible mask, whatever `combo` held before: the bit-counting loop finds the
population count; every write to `combo` is below `MAX_SELECTION_SIZE` (the size of
`combo`) and every read of `hand` below `count`; the write index ends at the population
count `n`; the `n` entries that `ai_score_combo` reads are inside `combo` and are the
hand cards at the set bits of the mask in ascending order; their ranks and suits index
the two tables in bounds; the hand type is at most 13 and indexes the 14 rows of
`ai_hand_base`; and `1 << count` is below `2 ^ 31`. -/
theorem index_safety (E : Externals) (hand combo : List (Option Card)) (m : Nat)
    (h1 : 1 ≤ hand.length) (h8 : hand.length ≤ 8)
    (hr : ∀ c, some c ∈ hand → c.rank < NUM_RANKS ∧ c.suit < NUM_SUITS)
    (hcombo : combo.length = MAX_SELECTION_SIZE) (hm : admissible hand.length m) :
    count_bits m = popcount hand.length m ∧
    (∀ a, a ∈ build_combo_accesses m hand.length 0 0 →
      a.1 < MAX_SELECTION_SIZE ∧ a.1 < combo.length ∧ a.2 < hand.length) ∧
    (build_combo_accesses m hand.length 0 0).length = popcount hand.length m ∧
    (build_combo hand m hand.length 0 0 combo).2 = popcount hand.length m ∧
    (build_combo hand m hand.length 0 0 combo).1.length = MAX_SELECTION_SIZE ∧
    popcount hand.length m ≤ (build_combo hand m hand.length 0 0 combo).1.length ∧
    (build_combo hand m hand.length 0 0 combo).1.take (popcount hand.length m) =
      mask_cards hand hand.length m ∧
    (∀ c, some c ∈ (build_combo hand m hand.length 0 0 combo).1.take (popcount hand.length m) →
      c.rank < NUM_RANKS ∧ c.suit < NUM_SUITS) ∧
    ACE < NUM_RANKS ∧
    ai_compute_hand_type E (build_combo hand m hand.length 0 0 combo).1
      (popcount hand.length m) ≤ 13 ∧
    ai_compute_hand_type E (build_combo hand m hand.length 0 0 combo).1
      (popcount hand.length m) < ai_hand_base.length ∧
    1 <<< hand.length = 2 ^ hand.length ∧ 2 ^ hand.length < 2 ^ 31 := by
  have hp5 : popcount hand.length m ≤ MAX_SELECTION_SIZE :=
    le_trans hm.2.2 (Nat.min_le_right _ _)
  have hpl : (picked_from hand m 0 hand.length).length = popcount hand.length m := by
    rw [picked_from_zero, mask_cards_length]
  obtain ⟨a, b, c⟩ := build_combo_spec hand m hand.length 0 0 combo
    (by rw [hpl]; omega) (by rw [hpl]; omega)
  rw [hpl] at a c
  simp only [Nat.zero_add, List.take_zero, List.nil_append] at a c
  rw [picked_from_zero] at c
  have hacc := build_combo_accesses_length hand m hand.length 0 0 combo
  rw [a, Nat.zero_add] at hacc
  have htype := ai_compute_hand_type_range E (build_combo hand m hand.length 0 0 combo).1
    (popcount hand.length m) (by
      have := popcount_pos hand.length m hm.1 hm.2.1
      omega)
  refine ⟨count_bits_eq_popcount hand.length m (by omega) hm.2.1, ?_, hacc.symm, a,
    by rw [b, hcombo], by rw [b, hcombo]; exact hp5, c, ?_, by decide, htype.2,
    lt_of_le_of_lt htype.2 (by decide), Nat.one_shiftLeft _,
    Nat.pow_lt_pow_right (by norm_num) (by omega)⟩
  · intro x hx
    obtain ⟨_, x2, _, x4⟩ := build_combo_accesses_bounds m hand.length 0 0 x hx
    exact ⟨x2, by rw [hcombo]; exact x2, by omega⟩
  · intro cd hcd
    rw [c] at hcd
    exact hr cd ((mask_cards_sublist hand m).subset hcd)

/-- Claim C23, at a concrete hand: in 3♣ 3♦ 9♠ with mask 5 and a buffer that still
holds the cards of an earlier mask, the two entries read are the cards at positions 0
and 2, written at indices 0 and 1. -/
theorem index_safety_witness :
    (build_combo pairHand 5 3 0 0
      [some ⟨1, 1⟩, some ⟨7, 2⟩, some ⟨7, 2⟩, none, none]).1.take (popcount 3 5) =
      [some ⟨1, 0⟩, some ⟨7, 2⟩] ∧
    build_combo_accesses 5 3 0 0 = [(0, 0), (1, 2)] ∧
    (build_combo pairHand 5 3 0 0
      [some ⟨1, 1⟩, some ⟨7, 2⟩, some ⟨7, 2⟩, none, none]).1.take (popcount 3 5) =
      mask_cards pairHand 3 5 :=
  ⟨by decide, by decide,
   (index_safety specExternals pairHand [some ⟨1, 1⟩, some ⟨7, 2⟩, some ⟨7, 2⟩, none, none] 5
      (by decide) (by decide) (fun c hc => by
        simp only [pairHand, List.mem_cons, Option.some.injEq, List.mem_nil_iff,
          or_false] at hc
        rcases hc with rfl | rfl | rfl <;> decide)
      (by decide) (by decide)).2.2.2.2.2.2.1⟩

end AiPlayer

namespace DebugPicker

/-! ## The cursor of the joker picker -/

/-- Page up in a registry of fewer than `PICKER_BODY_ROWS` jokers: with 5 jokers, the
cursor on row 0 and only L newly pressed, `debug_process_picker_input` computes
`(0 - 14 + 5) % 5`, which is `-4` in C, and leaves the cursor at `-4`. The registry of
the program has `get_joker_registry_size` entries, more than `PICKER_BODY_ROWS`. -/
theorem picker_page_up_negative :
    cursor_ok 5 ⟨true, 0, 0, false, 0⟩ ∧
    keys_hit_of toncKeys 0x01FF 0 = toncKeys.KEY_L ∧
    debug_process_picker_input toncKeys 5 0x01FF ⟨true, 0, 0, false, 0⟩ =
      ⟨true, -4, -4, false, 0x0200⟩ ∧
    ¬ cursor_ok 5 (debug_process_picker_input toncKeys 5 0x01FF ⟨true, 0, 0, false, 0⟩) := by
  decide

end DebugPicker
